import Mathlib

/-!
# Verification of `mzstrm.c` (minizip stream interface)

A shallow embedding of the stream dispatch layer, the little-endian integer
codec, the bulk copy loop, the passthru (byte counting) stream and the packed
DOS date codec of `src/mzstrm.c`.

Conventions of the embedding:

* A C stream object is split into its dispatch table (`mz_stream σ`, every
  entry an optional callback) and its mutable state `s : σ`, which every
  callback receives and returns.  A handle that may be `NULL` is an `Option`.
* Bytes are natural numbers; a byte stored into a `uint8_t` is reduced
  `% 256`.  Fixed-width unsigned arithmetic carries an explicit `% 2 ^ w`.
* `int32_t` results are integers (`Int`).
* A read callback returns the bytes it stored at the start of the caller's
  buffer; `overlay` puts them over the previous buffer contents.
-/

namespace MzStrm

/-! ## Constants -/

/-- Modelled from the spec: the success code of `mzstrm.h` (absent from the
sources); results are compared against it and `mz_dosdate_to_tm` returns the
literal `0` on success. -/
def MZ_OK : Int := 0

/-- Modelled from the spec: the "single negative sentinel error code" of
`mzstrm.h` (absent from the sources). -/
def MZ_STREAM_ERROR : Int := -1

/-- The constant `UINT16_MAX` of `<stdint.h>`. -/
def UINT16_MAX : Nat := 65535

/-! ## Stream interface -/

/-- The dispatch table `mz_stream` (declared in `mzstrm.h`) over a backing
state `σ`, with the entries the functions embedded below call.  Each entry is a
function pointer that may be `NULL` (`none`).  `read` gets the requested size
and returns the result code with the bytes it stored; `write` gets the first
`size` bytes at the buffer and the size. -/
structure mz_stream (σ : Type) where
  is_open : Option (σ → Int × σ) := none
  read : Option (σ → Nat → Int × List Nat × σ) := none
  write : Option (σ → List Nat → Nat → Int × σ) := none
  error : Option (σ → Int × σ) := none
  open_ : Option (σ → String → Int → Int × σ) := none
  tell : Option (σ → Int × σ) := none
  seek : Option (σ → Nat → Int → Int × σ) := none
  close : Option (σ → Int × σ) := none

/-- Bytes `data` stored at the beginning of the buffer `buf`. -/
def overlay (data buf : List Nat) : List Nat :=
  data ++ buf.drop data.length

/-- Embedding of `mz_stream_is_open`. -/
def mz_stream_is_open {σ : Type} (stream : Option (mz_stream σ)) (s : σ) : Int × σ :=
  match stream with
  | none => (MZ_STREAM_ERROR, s)
  | some strm =>
    match strm.is_open with
    | none => (MZ_STREAM_ERROR, s)
    | some f => f s

/-- Embedding of `mz_stream_read`: result, buffer afterwards, state afterwards. -/
def mz_stream_read {σ : Type} (stream : Option (mz_stream σ)) (s : σ)
    (buf : List Nat) (size : Nat) : Int × List Nat × σ :=
  match stream with
  | none => (MZ_STREAM_ERROR, buf, s)
  | some strm =>
    match strm.read with
    | none => (MZ_STREAM_ERROR, buf, s)
    | some rd =>
      match strm.is_open with
      | none =>
        let r := rd s size
        (r.1, overlay r.2.1 buf, r.2.2)
      | some f =>
        let o := f s
        if o.1 ≠ MZ_OK then (MZ_STREAM_ERROR, buf, o.2)
        else
          let r := rd o.2 size
          (r.1, overlay r.2.1 buf, r.2.2)

/-- Embedding of `mz_stream_error`. -/
def mz_stream_error {σ : Type} (stream : Option (mz_stream σ)) (s : σ) : Int × σ :=
  match stream with
  | none => (MZ_STREAM_ERROR, s)
  | some strm =>
    match strm.error with
    | none => (MZ_STREAM_ERROR, s)
    | some f => f s

/-- Embedding of `mz_stream_write`.  The size is a `uint32_t`; `return size`
on the empty write converts `0` to `int32_t`. -/
def mz_stream_write {σ : Type} (stream : Option (mz_stream σ)) (s : σ)
    (buf : List Nat) (size : Nat) : Int × σ :=
  match stream with
  | none => (MZ_STREAM_ERROR, s)
  | some strm =>
    match strm.write with
    | none => (MZ_STREAM_ERROR, s)
    | some wr =>
      if size = 0 then ((size : Int), s)
      else
        match strm.is_open with
        | none => wr s (buf.take size) size
        | some f =>
          let o := f s
          if o.1 ≠ MZ_OK then (MZ_STREAM_ERROR, o.2)
          else wr o.2 (buf.take size) size

/-- Embedding of `mz_stream_open`: no `is_open` guard. -/
def mz_stream_open {σ : Type} (stream : Option (mz_stream σ)) (s : σ)
    (path : String) (mode : Int) : Int × σ :=
  match stream with
  | none => (MZ_STREAM_ERROR, s)
  | some strm =>
    match strm.open_ with
    | none => (MZ_STREAM_ERROR, s)
    | some f => f s path mode

/-- Embedding of `mz_stream_tell` (an `int64_t` result). -/
def mz_stream_tell {σ : Type} (stream : Option (mz_stream σ)) (s : σ) : Int × σ :=
  match stream with
  | none => (MZ_STREAM_ERROR, s)
  | some strm =>
    match strm.tell with
    | none => (MZ_STREAM_ERROR, s)
    | some tl =>
      match strm.is_open with
      | none => tl s
      | some f =>
        let o := f s
        if o.1 ≠ MZ_OK then (MZ_STREAM_ERROR, o.2)
        else tl o.2

/-- Embedding of `mz_stream_seek`; `offset` is a `uint64_t`. -/
def mz_stream_seek {σ : Type} (stream : Option (mz_stream σ)) (s : σ)
    (offset : Nat) (origin : Int) : Int × σ :=
  match stream with
  | none => (MZ_STREAM_ERROR, s)
  | some strm =>
    match strm.seek with
    | none => (MZ_STREAM_ERROR, s)
    | some sk =>
      match strm.is_open with
      | none => sk s offset origin
      | some f =>
        let o := f s
        if o.1 ≠ MZ_OK then (MZ_STREAM_ERROR, o.2)
        else sk o.2 offset origin

/-- Embedding of `mz_stream_close`: no `is_open` guard. -/
def mz_stream_close {σ : Type} (stream : Option (mz_stream σ)) (s : σ) : Int × σ :=
  match stream with
  | none => (MZ_STREAM_ERROR, s)
  | some strm =>
    match strm.close with
    | none => (MZ_STREAM_ERROR, s)
    | some f => f s

/-! ## Primitive codec: reading -/

/-- Embedding of `mz_stream_read_uint8`.  `value` is the content of `*value`
before the call; the second component is its content afterwards. -/
def mz_stream_read_uint8 {σ : Type} (stream : Option (mz_stream σ)) (s : σ)
    (value : Nat) : Int × Nat × σ :=
  let r := mz_stream_read stream s [0] 1
  if r.1 = 1 then (MZ_OK, r.2.1.headD 0 % 256, r.2.2)
  else
    let e := mz_stream_error stream r.2.2
    if e.1 ≠ 0 then (MZ_STREAM_ERROR, value, e.2)
    else (MZ_OK, value, e.2)

/-- Embedding of `mz_stream_read_uint16`. -/
def mz_stream_read_uint16 {σ : Type} (stream : Option (mz_stream σ)) (s : σ)
    (_value : Nat) : Int × Nat × σ :=
  let c := 0
  let value := 0
  let r := mz_stream_read_uint8 stream s c
  if r.1 ≠ MZ_OK then (MZ_STREAM_ERROR, value, r.2.2) else
  let c := r.2.1
  let value := c % 2 ^ 16
  let r := mz_stream_read_uint8 stream r.2.2 c
  if r.1 ≠ MZ_OK then (MZ_STREAM_ERROR, value, r.2.2) else
  let c := r.2.1
  let value := (value + ((c % 2 ^ 16) <<< 8)) % 2 ^ 16
  (MZ_OK, value, r.2.2)

/-- Embedding of `mz_stream_read_uint32`. -/
def mz_stream_read_uint32 {σ : Type} (stream : Option (mz_stream σ)) (s : σ)
    (_value : Nat) : Int × Nat × σ :=
  let c := 0
  let value := 0
  let r := mz_stream_read_uint8 stream s c
  if r.1 ≠ MZ_OK then (MZ_STREAM_ERROR, value, r.2.2) else
  let c := r.2.1
  let value := c % 2 ^ 32
  let r := mz_stream_read_uint8 stream r.2.2 c
  if r.1 ≠ MZ_OK then (MZ_STREAM_ERROR, value, r.2.2) else
  let c := r.2.1
  let value := (value + ((c % 2 ^ 32) <<< 8) % 2 ^ 32) % 2 ^ 32
  let r := mz_stream_read_uint8 stream r.2.2 c
  if r.1 ≠ MZ_OK then (MZ_STREAM_ERROR, value, r.2.2) else
  let c := r.2.1
  let value := (value + ((c % 2 ^ 32) <<< 16) % 2 ^ 32) % 2 ^ 32
  let r := mz_stream_read_uint8 stream r.2.2 c
  if r.1 ≠ MZ_OK then (MZ_STREAM_ERROR, value, r.2.2) else
  let c := r.2.1
  let value := (value + ((c % 2 ^ 32) <<< 24) % 2 ^ 32) % 2 ^ 32
  (MZ_OK, value, r.2.2)

/-- One step `*value += ((uint64_t)c) << k` of `mz_stream_read_uint64`. -/
def add_shifted64 (value c k : Nat) : Nat :=
  (value + ((c % 2 ^ 64) <<< k) % 2 ^ 64) % 2 ^ 64

/-- Embedding of `mz_stream_read_uint64`.  Unlike the narrower readers it does
not clear `*value` on entry. -/
def mz_stream_read_uint64 {σ : Type} (stream : Option (mz_stream σ)) (s : σ)
    (value : Nat) : Int × Nat × σ :=
  let c := 0
  let r := mz_stream_read_uint8 stream s c
  if r.1 ≠ MZ_OK then (MZ_STREAM_ERROR, value, r.2.2) else
  let c := r.2.1
  let value := c % 2 ^ 64
  let r := mz_stream_read_uint8 stream r.2.2 c
  if r.1 ≠ MZ_OK then (MZ_STREAM_ERROR, value, r.2.2) else
  let c := r.2.1
  let value := add_shifted64 value c 8
  let r := mz_stream_read_uint8 stream r.2.2 c
  if r.1 ≠ MZ_OK then (MZ_STREAM_ERROR, value, r.2.2) else
  let c := r.2.1
  let value := add_shifted64 value c 16
  let r := mz_stream_read_uint8 stream r.2.2 c
  if r.1 ≠ MZ_OK then (MZ_STREAM_ERROR, value, r.2.2) else
  let c := r.2.1
  let value := add_shifted64 value c 24
  let r := mz_stream_read_uint8 stream r.2.2 c
  if r.1 ≠ MZ_OK then (MZ_STREAM_ERROR, value, r.2.2) else
  let c := r.2.1
  let value := add_shifted64 value c 32
  let r := mz_stream_read_uint8 stream r.2.2 c
  if r.1 ≠ MZ_OK then (MZ_STREAM_ERROR, value, r.2.2) else
  let c := r.2.1
  let value := add_shifted64 value c 40
  let r := mz_stream_read_uint8 stream r.2.2 c
  if r.1 ≠ MZ_OK then (MZ_STREAM_ERROR, value, r.2.2) else
  let c := r.2.1
  let value := add_shifted64 value c 48
  let r := mz_stream_read_uint8 stream r.2.2 c
  if r.1 ≠ MZ_OK then (MZ_STREAM_ERROR, value, r.2.2) else
  let c := r.2.1
  let value := add_shifted64 value c 56
  (MZ_OK, value, r.2.2)

/-! ## Primitive codec: writing -/

/-- The first loop of `mz_stream_write_value`: `len` iterations of
`buf[n] = value & 0xff; value >>= 8`.  Returns the buffer and the residue. -/
def write_value_fill : Nat → Nat → List Nat × Nat
  | 0, value => ([], value)
  | len + 1, value =>
    let rest := write_value_fill len (value >>> 8)
    ((value &&& 0xff) :: rest.1, rest.2)

/-- Embedding of `mz_stream_write_value`.  `value` is a `uint64_t`.  The
`int32_t` result of the write is compared with the `uint32_t` length after the
usual conversion to unsigned. -/
def mz_stream_write_value {σ : Type} (stream : Option (mz_stream σ)) (s : σ)
    (value : Nat) (len : Nat) : Int × σ :=
  let filled := write_value_fill len value
  let buf := if filled.2 ≠ 0 then List.replicate len 0xff else filled.1
  let w := mz_stream_write stream s buf len
  if w.1 % 2 ^ 32 ≠ (len : Int) then (MZ_STREAM_ERROR, w.2)
  else (MZ_OK, w.2)

/-- Embedding of `mz_stream_write_uint8`; `value` is a `uint8_t`. -/
def mz_stream_write_uint8 {σ : Type} (stream : Option (mz_stream σ)) (s : σ)
    (value : Nat) : Int × σ :=
  mz_stream_write_value stream s value 1

/-- Embedding of `mz_stream_write_uint16`; `value` is a `uint16_t`. -/
def mz_stream_write_uint16 {σ : Type} (stream : Option (mz_stream σ)) (s : σ)
    (value : Nat) : Int × σ :=
  mz_stream_write_value stream s value 2

/-- Embedding of `mz_stream_write_uint32`; `value` is a `uint32_t`. -/
def mz_stream_write_uint32 {σ : Type} (stream : Option (mz_stream σ)) (s : σ)
    (value : Nat) : Int × σ :=
  mz_stream_write_value stream s value 4

/-- Embedding of `mz_stream_write_uint64`; `value` is a `uint64_t`. -/
def mz_stream_write_uint64 {σ : Type} (stream : Option (mz_stream σ)) (s : σ)
    (value : Nat) : Int × σ :=
  mz_stream_write_value stream s value 8

/-! ## Stream copy -/

/-- The loop of `mz_stream_copy`.  Each unit of fuel pays for one evaluation of
the loop condition; `none` means the fuel ran out before the loop ended.
`buf` is the local chunk buffer, `len` the remaining `int32_t` length.  The
result is the return code with the final states of target and source. -/
def mz_stream_copy_loop {τ σ : Type} (target : Option (mz_stream τ))
    (source : Option (mz_stream σ)) :
    Nat → τ → σ → List Nat → Int → Option (Int × τ × σ)
  | 0, _, _, _, _ => none
  | fuel + 1, t, s, buf, len =>
    if len > 0 then
      let bytes_to_copy : Int := if len > (UINT16_MAX : Int) then (UINT16_MAX : Int) else len
      let r := mz_stream_read source s buf bytes_to_copy.toNat
      let read := r.1
      if read < 0 then some (MZ_STREAM_ERROR, t, r.2.2)
      else
        let w := mz_stream_write target t r.2.1 read.toNat
        let written := w.1
        if written ≠ read then some (MZ_STREAM_ERROR, w.2, r.2.2)
        else mz_stream_copy_loop target source fuel w.2 r.2.2 r.2.1 (len - read)
    else some (MZ_OK, t, s)

/-- Embedding of `mz_stream_copy`.  The chunk buffer `uint8_t buf[UINT16_MAX]`
starts out uninitialised in C; here it starts out as zeros. -/
def mz_stream_copy {τ σ : Type} (fuel : Nat) (target : Option (mz_stream τ)) (t : τ)
    (source : Option (mz_stream σ)) (s : σ) (len : Int) : Option (Int × τ × σ) :=
  mz_stream_copy_loop target source fuel t s (List.replicate UINT16_MAX 0) len

/-! ## Packed date codec -/

/-- The nine standard fields of `struct tm` (all of C type `int`). -/
structure tm where
  tm_sec : Int
  tm_min : Int
  tm_hour : Int
  tm_mday : Int
  tm_mon : Int
  tm_year : Int
  tm_wday : Int
  tm_yday : Int
  tm_isdst : Int
  deriving DecidableEq, Repr

/-- The result of `memset(ptm, 0, sizeof(struct tm))`. -/
def tm_zero : tm :=
  { tm_sec := 0, tm_min := 0, tm_hour := 0, tm_mday := 0, tm_mon := 0,
    tm_year := 0, tm_wday := 0, tm_yday := 0, tm_isdst := 0 }

/-- The macro `datevalue_in_range(min, max, value)`. -/
def datevalue_in_range (min max value : Int) : Bool :=
  decide (min ≤ value) && decide (value ≤ max)

/-- Embedding of `mz_invalid_date`: `1` when a field is out of range, else `0`. -/
def mz_invalid_date (ptm : tm) : Int :=
  if (!datevalue_in_range 0 207 ptm.tm_year ||
      !datevalue_in_range 0 11 ptm.tm_mon ||
      !datevalue_in_range 1 31 ptm.tm_mday ||
      !datevalue_in_range 0 23 ptm.tm_hour ||
      !datevalue_in_range 0 59 ptm.tm_min ||
      !datevalue_in_range 0 59 ptm.tm_sec) then 1 else 0

/-- Embedding of `mz_dosdate_to_raw_tm`.  `dos_date` is a `uint64_t`; the
arithmetic is 64-bit unsigned and every field goes through `(uint16_t)`.
The fields `tm_wday` and `tm_yday` of `*ptm` are not written. -/
def mz_dosdate_to_raw_tm (dos_date : Nat) (ptm : tm) : tm :=
  let date := dos_date >>> 16
  { ptm with
    tm_mday := (((date &&& 0x1f) % 2 ^ 16 : Nat) : Int)
    tm_mon := (((((date &&& 0x1E0) / 0x20) + 2 ^ 64 - 1) % 2 ^ 64 % 2 ^ 16 : Nat) : Int)
    tm_year := (((((date &&& 0x0FE00) / 0x0200) + 80) % 2 ^ 64 % 2 ^ 16 : Nat) : Int)
    tm_hour := ((((dos_date &&& 0xF800) / 0x800) % 2 ^ 16 : Nat) : Int)
    tm_min := ((((dos_date &&& 0x7E0) / 0x20) % 2 ^ 16 : Nat) : Int)
    tm_sec := (((2 * (dos_date &&& 0x1f)) % 2 ^ 64 % 2 ^ 16 : Nat) : Int)
    tm_isdst := -1 }

/-- Embedding of `mz_dosdate_to_tm`: the return code and the content of `*ptm`
afterwards. -/
def mz_dosdate_to_tm (dos_date : Nat) (ptm : tm) : Int × tm :=
  let raw := mz_dosdate_to_raw_tm dos_date ptm
  if mz_invalid_date raw ≠ 0 then (-1, tm_zero)
  else (0, raw)

/-- Conversion of an `int`/`int64` value to `uint32_t`. -/
def to_uint32 (x : Int) : Nat := (x % 2 ^ 32).toNat

/-- The year normalisation at the head of `mz_tm_to_dosdate`, applied to
`fixed_tm.tm_year`: three branches, for `[1980, ..]`, `[80, 1979]` and the rest. -/
def normalized_year (tm_year : Int) : Int :=
  if tm_year ≥ 1980 then tm_year - 1980
  else if tm_year ≥ 80 then tm_year - 80
  else tm_year + 20

/-- Embedding of `mz_tm_to_dosdate`.  The year is normalised in `fixed_tm`
and the range check is made on the original `ptm`.  `/` on `int` truncates
(`Int.tdiv`).  The left shift of the `int` date word is taken with the usual
two-complement wrap before its conversion to `uint32_t`; the time word is
computed in `uint32_t` because of the cast on the hour. -/
def mz_tm_to_dosdate (ptm : tm) : Nat :=
  let fixed_tm := ptm
  let fixed_tm := { fixed_tm with tm_year := normalized_year fixed_tm.tm_year }
  if mz_invalid_date ptm ≠ 0 then 0
  else
    to_uint32 ((fixed_tm.tm_mday + 32 * (fixed_tm.tm_mon + 1) + 512 * fixed_tm.tm_year) * 2 ^ 16) |||
      (to_uint32 (Int.tdiv fixed_tm.tm_sec 2 + 32 * fixed_tm.tm_min) +
        (2048 * to_uint32 fixed_tm.tm_hour) % 2 ^ 32) % 2 ^ 32

/-! ## Passthru stream -/

/-- The data of `mz_stream_passthru` besides its own dispatch table: the
non-owning base pointer `stream.base` (`none` for `NULL`) and the two `int64_t`
counters.  The state of the base stream itself is passed along separately.
Signed overflow of the counters (more than `2 ^ 63 - 1` bytes) is undefined in C
and is not modelled: the counters are unbounded integers. -/
structure mz_stream_passthru (σ : Type) where
  base : Option (mz_stream σ)
  total_in : Int
  total_out : Int

/-- Embedding of `mz_stream_passthru_create` when the allocation succeeds: the
zeroed instance (`memset`), whose dispatch table is then filled with the
`mz_stream_passthru_*` functions below. -/
def mz_stream_passthru_create {σ : Type} : mz_stream_passthru σ :=
  { base := none, total_in := 0, total_out := 0 }

/-- Embedding of `mz_stream_set_base` on a passthru stream. -/
def mz_stream_set_base {σ : Type} (stream : mz_stream_passthru σ)
    (base : Option (mz_stream σ)) : Int × mz_stream_passthru σ :=
  (MZ_OK, { stream with base := base })

/-- Embedding of `mz_stream_passthru_open`. -/
def mz_stream_passthru_open {σ : Type} (passthru : mz_stream_passthru σ) (s : σ)
    (path : String) (mode : Int) : Int × mz_stream_passthru σ × σ :=
  let r := mz_stream_open passthru.base s path mode
  (r.1, passthru, r.2)

/-- Embedding of `mz_stream_passthru_is_open`. -/
def mz_stream_passthru_is_open {σ : Type} (passthru : mz_stream_passthru σ) (s : σ) :
    Int × mz_stream_passthru σ × σ :=
  let r := mz_stream_is_open passthru.base s
  (r.1, passthru, r.2)

/-- Embedding of `mz_stream_passthru_read`: result, buffer, passthru and base
state afterwards. -/
def mz_stream_passthru_read {σ : Type} (passthru : mz_stream_passthru σ) (s : σ)
    (buf : List Nat) (size : Nat) : Int × List Nat × mz_stream_passthru σ × σ :=
  let r := mz_stream_read passthru.base s buf size
  let read := r.1
  if read > 0 then
    (read, r.2.1, { passthru with total_in := passthru.total_in + read }, r.2.2)
  else (read, r.2.1, passthru, r.2.2)

/-- Embedding of `mz_stream_passthru_write`. -/
def mz_stream_passthru_write {σ : Type} (passthru : mz_stream_passthru σ) (s : σ)
    (buf : List Nat) (size : Nat) : Int × mz_stream_passthru σ × σ :=
  let w := mz_stream_write passthru.base s buf size
  let written := w.1
  if written > 0 then
    (written, { passthru with total_out := passthru.total_out + written }, w.2)
  else (written, passthru, w.2)

/-- Embedding of `mz_stream_passthru_tell`. -/
def mz_stream_passthru_tell {σ : Type} (passthru : mz_stream_passthru σ) (s : σ) :
    Int × mz_stream_passthru σ × σ :=
  let r := mz_stream_tell passthru.base s
  (r.1, passthru, r.2)

/-- Embedding of `mz_stream_passthru_seek`. -/
def mz_stream_passthru_seek {σ : Type} (passthru : mz_stream_passthru σ) (s : σ)
    (offset : Nat) (origin : Int) : Int × mz_stream_passthru σ × σ :=
  let r := mz_stream_seek passthru.base s offset origin
  (r.1, passthru, r.2)

/-- Embedding of `mz_stream_passthru_close`. -/
def mz_stream_passthru_close {σ : Type} (passthru : mz_stream_passthru σ) (s : σ) :
    Int × mz_stream_passthru σ × σ :=
  let r := mz_stream_close passthru.base s
  (r.1, passthru, r.2)

/-- Embedding of `mz_stream_passthru_error`. -/
def mz_stream_passthru_error {σ : Type} (passthru : mz_stream_passthru σ) (s : σ) :
    Int × mz_stream_passthru σ × σ :=
  let r := mz_stream_error passthru.base s
  (r.1, passthru, r.2)

/-- Embedding of `mz_stream_passthru_get_total_in`. -/
def mz_stream_passthru_get_total_in {σ : Type} (passthru : mz_stream_passthru σ) : Int :=
  passthru.total_in

/-- Embedding of `mz_stream_passthru_get_total_out`. -/
def mz_stream_passthru_get_total_out {σ : Type} (passthru : mz_stream_passthru σ) : Int :=
  passthru.total_out

/-! ## Environment: streams used to state the properties -/

/-- A stream accepts every write in full when it is open, has the write
capability, and each write of `n > 0` bytes returns `n` and appends exactly the
bytes handed over to what it `received`. -/
structure AcceptsWrites {τ : Type} (strm : mz_stream τ) (received : τ → List Nat) : Prop where
  has_write : ∃ wr, strm.write = some wr
  is_open_ok : ∀ f, strm.is_open = some f →
    ∀ t, (f t).1 = MZ_OK ∧ received (f t).2 = received t
  write_full : ∀ wr, strm.write = some wr → ∀ t buf n, 0 < n →
    (wr t buf n).1 = (n : Int) ∧ received (wr t buf n).2 = received t ++ buf

/-- A stream delivers the bytes it holds (`content`) when it is open, has the
read capability, and each read of `n > 0` bytes with at least `n` bytes held
returns some `k` with `1 ≤ k ≤ n`, stores the first `k` bytes held and advances
by exactly `k`. -/
structure DeliversBytes {σ : Type} (strm : mz_stream σ) (content : σ → List Nat) : Prop where
  has_read : ∃ rd, strm.read = some rd
  is_open_ok : ∀ f, strm.is_open = some f →
    ∀ s, (f s).1 = MZ_OK ∧ content (f s).2 = content s
  read_some : ∀ rd, strm.read = some rd → ∀ s n, 0 < n → n ≤ (content s).length →
    ∃ k : Nat, 1 ≤ k ∧ k ≤ n ∧ (rd s n).1 = (k : Int) ∧
      (rd s n).2.1 = (content s).take k ∧ content (rd s n).2.2 = (content s).drop k

/-- A stream over `σ` with a log of the sizes its read capability was asked
for; everything else is forwarded unchanged. -/
def logReads {σ : Type} (strm : mz_stream σ) : mz_stream (σ × List Nat) :=
  { is_open := strm.is_open.map fun f p => ((f p.1).1, ((f p.1).2, p.2))
    read := strm.read.map fun rd p n => ((rd p.1 n).1, (rd p.1 n).2.1, ((rd p.1 n).2.2, p.2 ++ [n]))
    write := strm.write.map fun wr p buf n => ((wr p.1 buf n).1, ((wr p.1 buf n).2, p.2))
    error := strm.error.map fun f p => ((f p.1).1, ((f p.1).2, p.2))
    open_ := strm.open_.map fun f p path mode => ((f p.1 path mode).1, ((f p.1 path mode).2, p.2))
    tell := strm.tell.map fun f p => ((f p.1).1, ((f p.1).2, p.2))
    seek := strm.seek.map fun f p off origin =>
      ((f p.1 off origin).1, ((f p.1 off origin).2, p.2))
    close := strm.close.map fun f p => ((f p.1).1, ((f p.1).2, p.2)) }

/-- An in-memory target: always open, appends every write to its state. -/
def memSink : mz_stream (List Nat) :=
  { is_open := some fun t => (MZ_OK, t)
    write := some fun t buf n => ((n : Int), t ++ buf)
    error := some fun t => (0, t) }

/-- An in-memory source: always open, a read of `n` bytes delivers the first
`n` bytes left (fewer at the end of the data, none when empty). -/
def memSource : mz_stream (List Nat) :=
  { is_open := some fun s => (MZ_OK, s)
    read := some fun s n => (((s.take n).length : Int), s.take n, s.drop n)
    error := some fun s => (0, s) }

/-- Little-endian bytes of `v` in a field of `len` bytes:
byte `i` is `(v / 256 ^ i) % 256`. -/
def le_bytes (v len : Nat) : List Nat :=
  (List.range len).map fun i => v / 256 ^ i % 256

/-- The state in which the backing capability runs: the state left by the
`is_open` guard (the state itself when the stream has no `is_open`). -/
def state_after_guard {σ : Type} (strm : mz_stream σ) (s : σ) : σ :=
  match strm.is_open with
  | none => s
  | some f => (f s).2

/-- The `is_open` guard lets the operation through in state `s`. -/
def passes_guard {σ : Type} (strm : mz_stream σ) (s : σ) : Prop :=
  ∀ f, strm.is_open = some f → (f s).1 = MZ_OK

/-- The calendar value 1 January, 00:00:00, with `tm_year = key`. -/
def new_year_day (key : Int) : tm :=
  { tm_sec := 0, tm_min := 0, tm_hour := 0, tm_mday := 1, tm_mon := 0,
    tm_year := key, tm_wday := 0, tm_yday := 0, tm_isdst := 0 }

/-- The calendar value 23:59:58 on day 31 of month 11 with `tm_year = 207`
(2107-12-31), the largest date the format holds. -/
def last_date : tm :=
  { tm_sec := 58, tm_min := 59, tm_hour := 23, tm_mday := 31, tm_mon := 11,
    tm_year := 207, tm_wday := 0, tm_yday := 0, tm_isdst := 0 }

/-- An operation a caller can make on a passthru stream, with its arguments. -/
inductive passthru_op where
  | op_open (path : String) (mode : Int)
  | op_is_open
  | op_read (buf : List Nat) (size : Nat)
  | op_write (buf : List Nat) (size : Nat)
  | op_tell
  | op_seek (offset : Nat) (origin : Int)
  | op_close
  | op_error
  | op_get_total_in
  | op_get_total_out

/-- The call of the `mz_stream_passthru_*` function an operation stands for:
its result and the passthru and base state afterwards. -/
def passthru_step {σ : Type} (op : passthru_op) (passthru : mz_stream_passthru σ) (s : σ) :
    Int × mz_stream_passthru σ × σ :=
  match op with
  | .op_open path mode => mz_stream_passthru_open passthru s path mode
  | .op_is_open => mz_stream_passthru_is_open passthru s
  | .op_read buf size =>
    let r := mz_stream_passthru_read passthru s buf size
    (r.1, r.2.2)
  | .op_write buf size => mz_stream_passthru_write passthru s buf size
  | .op_tell => mz_stream_passthru_tell passthru s
  | .op_seek offset origin => mz_stream_passthru_seek passthru s offset origin
  | .op_close => mz_stream_passthru_close passthru s
  | .op_error => mz_stream_passthru_error passthru s
  | .op_get_total_in => (mz_stream_passthru_get_total_in passthru, passthru, s)
  | .op_get_total_out => (mz_stream_passthru_get_total_out passthru, passthru, s)

/-- A sequence of operations run in order: the results with their operations,
and the final passthru and base state. -/
def passthru_run {σ : Type} :
    List passthru_op → mz_stream_passthru σ → σ →
      List (passthru_op × Int) × mz_stream_passthru σ × σ
  | [], passthru, s => ([], passthru, s)
  | op :: ops, passthru, s =>
    let r := passthru_step op passthru s
    let rest := passthru_run ops r.2.1 r.2.2
    ((op, r.1) :: rest.1, rest.2)

/-- Sum of the positive results of the reads in a list of results. -/
def sum_read_results : List (passthru_op × Int) → Int
  | [] => 0
  | (.op_read _ _, r) :: rest => (if r > 0 then r else 0) + sum_read_results rest
  | _ :: rest => sum_read_results rest

/-- Sum of the positive results of the writes in a list of results. -/
def sum_write_results : List (passthru_op × Int) → Int
  | [] => 0
  | (.op_write _ _, r) :: rest => (if r > 0 then r else 0) + sum_write_results rest
  | _ :: rest => sum_write_results rest

/-- A stream handle with no capability at all. -/
def bareStream : mz_stream Unit := {}

/-- A stream whose state counts the calls of its capabilities: each call of
`is_open`, `read`, `write` or `error` adds one. -/
def tickingStream : mz_stream Nat :=
  { is_open := some fun n => (MZ_OK, n + 1)
    read := some fun n _ => (0, [], n + 1)
    write := some fun n _ size => ((size : Int), n + 1)
    error := some fun n => (0, n + 1) }

/-- The steps `mz_stream_read_uint32` and `mz_stream_read_uint64` repeat after
their first byte, as a recursion: `n` more times, read a byte into `c` (fail
with the value so far when the read fails) and add `c` shifted by `8 * i` to
the value in `bits`-bit unsigned arithmetic, `i` going up by one. -/
def read_more {σ : Type} (stream : Option (mz_stream σ)) (bits : Nat) :
    Nat → Nat → σ → Nat → Nat → Int × Nat × σ
  | 0, _, s, _, value => (MZ_OK, value, s)
  | n + 1, i, s, c, value =>
    let r := mz_stream_read_uint8 stream s c
    if r.1 ≠ MZ_OK then (MZ_STREAM_ERROR, value, r.2.2)
    else
      read_more stream bits n (i + 1) r.2.2 r.2.1
        ((value + ((r.2.1 % 2 ^ bits) <<< (8 * i)) % 2 ^ bits) % 2 ^ bits)

/-- The value of a list of bytes read as a little-endian number. -/
def le_value : List Nat → Nat
  | [] => 0
  | b :: bs => b + 256 * le_value bs

/-- The content of the byte variable `c` after each of `n` single-byte reads
from a source holding `bytes` that ends quietly: the byte read, or the previous
content of `c` once the data is exhausted. -/
def fill_reads : List Nat → Nat → Nat → List Nat
  | _, _, 0 => []
  | [], c, n + 1 => c :: fill_reads [] c n
  | b :: rest, _, n + 1 => (b % 256) :: fill_reads rest (b % 256) n

/-- The bytes of a `width`-byte field when only `bytes` could be read: every
position past the end holds the last byte read, or 0 if none was read. -/
def pad_with_last (bytes : List Nat) (width : Nat) : List Nat :=
  bytes ++ List.replicate (width - bytes.length) (bytes.getLastD 0)

/-- A delivering stream that, once its data is exhausted, answers a read of one
byte with 0 bytes and reports no error, staying exhausted. -/
structure EndsQuietly {σ : Type} (strm : mz_stream σ) (content : σ → List Nat) : Prop where
  delivers : DeliversBytes strm content
  read_end : ∀ rd, strm.read = some rd → ∀ s, content s = [] →
    (rd s 1).1 = 0 ∧ content (rd s 1).2.2 = []
  error_none : ∃ ef, strm.error = some ef ∧
    ∀ s, content s = [] → (ef s).1 = 0 ∧ content (ef s).2 = []

/-- The single-byte reads of a multi-byte reader go as follows from state `s`
with the byte variable holding `c`: one read succeeds for each element of the
list, leaving that element in the byte variable, and the read after them does
not return `MZ_OK`. -/
def reads_then_fail {σ : Type} (stream : Option (mz_stream σ)) : List Nat → σ → Nat → Prop
  | [], s, c => (mz_stream_read_uint8 stream s c).1 ≠ MZ_OK
  | c1 :: cs, s, c =>
    (mz_stream_read_uint8 stream s c).1 = MZ_OK ∧
      (mz_stream_read_uint8 stream s c).2.1 = c1 ∧
      reads_then_fail stream cs (mz_stream_read_uint8 stream s c).2.2 c1

/-- An in-memory source whose reads fail once the data is exhausted: the read
returns `MZ_STREAM_ERROR` and `error` reports it. -/
def brokenSource : mz_stream (List Nat) :=
  { is_open := some fun s => (MZ_OK, s)
    read := some fun s n =>
      if s = [] then (MZ_STREAM_ERROR, [], s)
      else (((s.take n).length : Int), s.take n, s.drop n)
    error := some fun s => (MZ_STREAM_ERROR, s) }

/-! ## Lemmas: stream interface -/

theorem mz_stream_write_guarded {σ : Type} (strm : mz_stream σ)
    (wr : σ → List Nat → Nat → Int × σ) (s : σ) (buf : List Nat) (size : Nat)
    (hwr : strm.write = some wr) (hopen : passes_guard strm s) (hsize : 0 < size) :
    mz_stream_write (some strm) s buf size =
      wr (state_after_guard strm s) (buf.take size) size := by
  have hne : size ≠ 0 := Nat.pos_iff_ne_zero.mp hsize
  unfold mz_stream_write state_after_guard
  simp only [hwr, if_neg hne]
  cases hf : strm.is_open with
  | none => rfl
  | some f =>
    have h := hopen f hf
    simp [h]

theorem mz_stream_read_guarded {σ : Type} (strm : mz_stream σ)
    (rd : σ → Nat → Int × List Nat × σ) (s : σ) (buf : List Nat) (size : Nat)
    (hrd : strm.read = some rd) (hopen : passes_guard strm s) :
    mz_stream_read (some strm) s buf size =
      ((rd (state_after_guard strm s) size).1,
        overlay (rd (state_after_guard strm s) size).2.1 buf,
        (rd (state_after_guard strm s) size).2.2) := by
  unfold mz_stream_read state_after_guard
  simp only [hrd]
  cases hf : strm.is_open with
  | none => rfl
  | some f =>
    have h := hopen f hf
    simp [h]

theorem AcceptsWrites.sink_passes {τ : Type} {strm : mz_stream τ} {received : τ → List Nat}
    (h : AcceptsWrites strm received) (t : τ) : passes_guard strm t :=
  fun f hf => (h.is_open_ok f hf t).1

theorem AcceptsWrites.guard_received {τ : Type} {strm : mz_stream τ}
    {received : τ → List Nat} (h : AcceptsWrites strm received) (t : τ) :
    received (state_after_guard strm t) = received t := by
  unfold state_after_guard
  cases hf : strm.is_open with
  | none => rfl
  | some f => exact (h.is_open_ok f hf t).2

/-- A write of `n > 0` bytes on a stream that accepts writes returns `n` and
appends the first `n` bytes of the buffer. -/
theorem AcceptsWrites.write_spec {τ : Type} {strm : mz_stream τ} {received : τ → List Nat}
    (h : AcceptsWrites strm received) (t : τ) (buf : List Nat) (n : Nat) (hn : 0 < n) :
    (mz_stream_write (some strm) t buf n).1 = (n : Int) ∧
      received (mz_stream_write (some strm) t buf n).2 = received t ++ buf.take n := by
  obtain ⟨wr, hwr⟩ := h.has_write
  rw [mz_stream_write_guarded strm wr t buf n hwr (h.sink_passes t) hn]
  have hw := h.write_full wr hwr (state_after_guard strm t) (buf.take n) n hn
  rw [h.guard_received t] at hw
  exact hw

theorem DeliversBytes.source_passes {σ : Type} {strm : mz_stream σ} {content : σ → List Nat}
    (h : DeliversBytes strm content) (s : σ) : passes_guard strm s :=
  fun f hf => (h.is_open_ok f hf s).1

theorem DeliversBytes.guard_content {σ : Type} {strm : mz_stream σ}
    {content : σ → List Nat} (h : DeliversBytes strm content) (s : σ) :
    content (state_after_guard strm s) = content s := by
  unfold state_after_guard
  cases hf : strm.is_open with
  | none => rfl
  | some f => exact (h.is_open_ok f hf s).2

/-- A read of `n > 0` bytes from a delivering stream that holds at least `n`
bytes returns `k` bytes, `1 ≤ k ≤ n`: the first `k` bytes held. -/
theorem DeliversBytes.read_spec {σ : Type} {strm : mz_stream σ} {content : σ → List Nat}
    (h : DeliversBytes strm content) (s : σ) (buf : List Nat) (n : Nat) (hn : 0 < n)
    (hlen : n ≤ (content s).length) :
    ∃ k : Nat, 1 ≤ k ∧ k ≤ n ∧
      (mz_stream_read (some strm) s buf n).1 = (k : Int) ∧
      (mz_stream_read (some strm) s buf n).2.1 = overlay ((content s).take k) buf ∧
      content (mz_stream_read (some strm) s buf n).2.2 = (content s).drop k := by
  obtain ⟨rd, hrd⟩ := h.has_read
  rw [mz_stream_read_guarded strm rd s buf n hrd (h.source_passes s)]
  have hg := h.guard_content s
  obtain ⟨k, hk1, hk2, hr1, hr2, hr3⟩ :=
    h.read_some rd hrd (state_after_guard strm s) n hn (by rw [hg]; exact hlen)
  rw [hg] at hr2 hr3
  exact ⟨k, hk1, hk2, hr1, by simp only [hr2], hr3⟩

/-! ## Lemmas: primitive codec -/

theorem le_bytes_length (v len : Nat) : (le_bytes v len).length = len := by
  simp [le_bytes]

theorem le_bytes_getElem? (v len i : Nat) (hi : i < len) :
    (le_bytes v len)[i]? = some (v / 256 ^ i % 256) := by
  simp [le_bytes, List.getElem?_range hi]

theorem le_bytes_succ (v len : Nat) :
    le_bytes v (len + 1) = v % 256 :: le_bytes (v / 256) len := by
  unfold le_bytes
  rw [List.range_succ_eq_map, List.map_cons, List.map_map]
  congr 1
  · simp
  · apply List.map_congr_left
    intro i _
    simp [Function.comp, pow_succ, Nat.div_div_eq_div_mul, Nat.mul_comm]

/-- The fill loop stores the little-endian bytes and leaves `value / 256 ^ len`. -/
theorem write_value_fill_eq (len value : Nat) :
    write_value_fill len value = (le_bytes value len, value / 256 ^ len) := by
  induction len generalizing value with
  | zero => simp [write_value_fill, le_bytes]
  | succ n ih =>
    have hmask : value &&& 0xff = value % 256 := Nat.and_pow_two_sub_one_eq_mod value 8
    have hshift : value >>> 8 = value / 256 := Nat.shiftRight_eq_div_pow value 8
    simp only [write_value_fill, ih, le_bytes_succ, hmask, hshift]
    rw [Nat.div_div_eq_div_mul, pow_succ, Nat.mul_comm]

/-- The buffer `mz_stream_write_value` passes on: the plain bytes when the
value fits, the clamp otherwise. -/
theorem mz_stream_write_value_eq {σ : Type} (stream : Option (mz_stream σ)) (s : σ)
    (value len : Nat) :
    mz_stream_write_value stream s value len =
      (if (mz_stream_write stream s
            (if value / 256 ^ len ≠ 0 then List.replicate len 0xff else le_bytes value len)
            len).1 % 2 ^ 32 ≠ (len : Int)
        then MZ_STREAM_ERROR else MZ_OK,
        (mz_stream_write stream s
            (if value / 256 ^ len ≠ 0 then List.replicate len 0xff else le_bytes value len)
            len).2) := by
  unfold mz_stream_write_value
  simp only [write_value_fill_eq]
  split <;> split <;> rfl

/-- One byte read from a delivering stream that holds `b :: rest`. -/
theorem DeliversBytes.read_uint8 {σ : Type} {strm : mz_stream σ} {content : σ → List Nat}
    (h : DeliversBytes strm content) (s : σ) (old b : Nat) (rest : List Nat)
    (hs : content s = b :: rest) :
    ∃ s2, mz_stream_read_uint8 (some strm) s old = (MZ_OK, b % 256, s2) ∧
      content s2 = rest := by
  obtain ⟨k, hk1, hk2, hr1, hr2, hr3⟩ :=
    h.read_spec s [0] 1 (by decide) (by rw [hs]; simp)
  have hk : k = 1 := by omega
  subst hk
  refine ⟨(mz_stream_read (some strm) s [0] 1).2.2, ?_, ?_⟩
  · unfold mz_stream_read_uint8
    simp only [hr1, hr2, hs]
    simp [overlay]
  · rw [hr3, hs]; simp

/-- Two bytes read from a delivering stream that holds `b0 :: b1 :: rest`. -/
theorem DeliversBytes.read_uint16 {σ : Type} {strm : mz_stream σ} {content : σ → List Nat}
    (h : DeliversBytes strm content) (s : σ) (old b0 b1 : Nat) (rest : List Nat)
    (hs : content s = b0 :: b1 :: rest) :
    ∃ s2, mz_stream_read_uint16 (some strm) s old =
        (MZ_OK, b0 % 256 + b1 % 256 * 256, s2) ∧ content s2 = rest := by
  obtain ⟨s1, h1, c1⟩ := h.read_uint8 s 0 b0 _ hs
  obtain ⟨s2, h2, c2⟩ := h.read_uint8 s1 (b0 % 256) b1 _ c1
  refine ⟨s2, ?_, c2⟩
  unfold mz_stream_read_uint16
  simp only [h1, h2, Nat.shiftLeft_eq, ne_eq, not_true_eq_false, if_false]
  congr 2
  omega

/-- Four bytes read from a delivering stream. -/
theorem DeliversBytes.read_uint32 {σ : Type} {strm : mz_stream σ} {content : σ → List Nat}
    (h : DeliversBytes strm content) (s : σ) (old b0 b1 b2 b3 : Nat) (rest : List Nat)
    (hs : content s = b0 :: b1 :: b2 :: b3 :: rest) :
    ∃ s2, mz_stream_read_uint32 (some strm) s old =
        (MZ_OK, b0 % 256 + b1 % 256 * 256 + b2 % 256 * 256 ^ 2 + b3 % 256 * 256 ^ 3, s2) ∧
      content s2 = rest := by
  obtain ⟨s1, h1, c1⟩ := h.read_uint8 s 0 b0 _ hs
  obtain ⟨s2, h2, c2⟩ := h.read_uint8 s1 (b0 % 256) b1 _ c1
  obtain ⟨s3, h3, c3⟩ := h.read_uint8 s2 (b1 % 256) b2 _ c2
  obtain ⟨s4, h4, c4⟩ := h.read_uint8 s3 (b2 % 256) b3 _ c3
  refine ⟨s4, ?_, c4⟩
  unfold mz_stream_read_uint32
  simp only [h1, h2, h3, h4, Nat.shiftLeft_eq, ne_eq, not_true_eq_false, if_false]
  congr 2
  omega

theorem add_shifted64_eq (value c k : Nat) (hc : c < 2 ^ 64)
    (h : value + c * 2 ^ k < 2 ^ 64) : add_shifted64 value c k = value + c * 2 ^ k := by
  have hk : c * 2 ^ k < 2 ^ 64 := by omega
  unfold add_shifted64
  rw [Nat.mod_eq_of_lt hc, Nat.shiftLeft_eq, Nat.mod_eq_of_lt hk, Nat.mod_eq_of_lt h]

/-- Eight bytes read from a delivering stream. -/
theorem DeliversBytes.read_uint64 {σ : Type} {strm : mz_stream σ} {content : σ → List Nat}
    (h : DeliversBytes strm content) (s : σ) (old b0 b1 b2 b3 b4 b5 b6 b7 : Nat)
    (rest : List Nat)
    (hs : content s = b0 :: b1 :: b2 :: b3 :: b4 :: b5 :: b6 :: b7 :: rest) :
    ∃ s2, mz_stream_read_uint64 (some strm) s old =
        (MZ_OK, b0 % 256 + b1 % 256 * 256 + b2 % 256 * 256 ^ 2 + b3 % 256 * 256 ^ 3 +
          b4 % 256 * 256 ^ 4 + b5 % 256 * 256 ^ 5 + b6 % 256 * 256 ^ 6 +
          b7 % 256 * 256 ^ 7, s2) ∧
      content s2 = rest := by
  obtain ⟨s1, h1, c1⟩ := h.read_uint8 s 0 b0 _ hs
  obtain ⟨s2, h2, c2⟩ := h.read_uint8 s1 (b0 % 256) b1 _ c1
  obtain ⟨s3, h3, c3⟩ := h.read_uint8 s2 (b1 % 256) b2 _ c2
  obtain ⟨s4, h4, c4⟩ := h.read_uint8 s3 (b2 % 256) b3 _ c3
  obtain ⟨s5, h5, c5⟩ := h.read_uint8 s4 (b3 % 256) b4 _ c4
  obtain ⟨s6, h6, c6⟩ := h.read_uint8 s5 (b4 % 256) b5 _ c5
  obtain ⟨s7, h7, c7⟩ := h.read_uint8 s6 (b5 % 256) b6 _ c6
  obtain ⟨s8, h8, c8⟩ := h.read_uint8 s7 (b6 % 256) b7 _ c7
  refine ⟨s8, ?_, c8⟩
  have e0 : b0 % 256 % 2 ^ 64 = b0 % 256 := Nat.mod_eq_of_lt (by omega)
  unfold mz_stream_read_uint64
  simp only [h1, h2, h3, h4, h5, h6, h7, h8, ne_eq, not_true_eq_false, if_false, e0]
  rw [add_shifted64_eq _ _ 8 (by omega) (by omega),
    add_shifted64_eq _ _ 16 (by omega) (by omega),
    add_shifted64_eq _ _ 24 (by omega) (by omega),
    add_shifted64_eq _ _ 32 (by omega) (by omega),
    add_shifted64_eq _ _ 40 (by omega) (by omega),
    add_shifted64_eq _ _ 48 (by omega) (by omega),
    add_shifted64_eq _ _ 56 (by omega) (by omega)]
  norm_num

theorem memSink_accepts : AcceptsWrites memSink id where
  has_write := ⟨_, rfl⟩
  is_open_ok := by
    intro f hf t
    simp only [memSink, Option.some.injEq] at hf
    subst hf
    exact ⟨rfl, rfl⟩
  write_full := by
    intro wr hwr t buf n _
    simp only [memSink, Option.some.injEq] at hwr
    subst hwr
    exact ⟨rfl, rfl⟩

theorem memSource_delivers : DeliversBytes memSource id where
  has_read := ⟨_, rfl⟩
  is_open_ok := by
    intro f hf s
    simp only [memSource, Option.some.injEq] at hf
    subst hf
    exact ⟨rfl, rfl⟩
  read_some := by
    intro rd hrd s n hn hlen
    simp only [memSource, Option.some.injEq] at hrd
    subst hrd
    simp only [id] at hlen
    refine ⟨n, hn, le_refl n, ?_, rfl, rfl⟩
    simp [List.length_take, hlen]

theorem le_bytes_zero (v : Nat) : le_bytes v 0 = [] := rfl

/-- A value that fits its field reaches an accepting target as its plain
little-endian bytes. -/
theorem AcceptsWrites.write_value_fits {τ : Type} {strm : mz_stream τ}
    {received : τ → List Nat} (h : AcceptsWrites strm received) (t : τ) (v len : Nat)
    (hpos : 0 < len) (hlen : len < 2 ^ 32) (hv : v < 256 ^ len) :
    (mz_stream_write_value (some strm) t v len).1 = MZ_OK ∧
      received (mz_stream_write_value (some strm) t v len).2 =
        received t ++ le_bytes v len := by
  have hres : v / 256 ^ len = 0 := Nat.div_eq_of_lt hv
  obtain ⟨hw1, hw2⟩ := h.write_spec t (le_bytes v len) len hpos
  rw [mz_stream_write_value_eq]
  simp only [hres, ne_eq, not_true_eq_false, if_false, hw1, hw2]
  have hmod : ((len : Int) % 2 ^ 32) = (len : Int) := by omega
  rw [hmod]
  constructor
  · simp
  · rw [List.take_of_length_le (by rw [le_bytes_length])]

/-- A value that does not fit its field reaches an accepting target as `len`
bytes `0xff`. -/
theorem AcceptsWrites.write_value_clamps {τ : Type} {strm : mz_stream τ}
    {received : τ → List Nat} (h : AcceptsWrites strm received) (t : τ) (v len : Nat)
    (hpos : 0 < len) (hlen : len < 2 ^ 32) (hv : 256 ^ len ≤ v) :
    (mz_stream_write_value (some strm) t v len).1 = MZ_OK ∧
      received (mz_stream_write_value (some strm) t v len).2 =
        received t ++ List.replicate len 0xff := by
  have hres : v / 256 ^ len ≠ 0 := by
    have := Nat.div_pos hv (Nat.pos_pow_of_pos len (by decide))
    omega
  obtain ⟨hw1, hw2⟩ := h.write_spec t (List.replicate len 0xff) len hpos
  rw [mz_stream_write_value_eq]
  simp only [hres, ne_eq, not_false_eq_true, if_true, hw1, hw2]
  have hmod : ((len : Int) % 2 ^ 32) = (len : Int) := by omega
  rw [hmod]
  constructor
  · simp
  · rw [List.take_of_length_le (by rw [List.length_replicate])]

/-! ## Claims -/

/-- C1: for each width 1, 2, 4, 8 and each value `v` below `2 ^ (8 * width)`,
writing `v` with `mz_stream_write_uintN` to a target that accepts every write in
full returns `MZ_OK`, and reading with the matching `mz_stream_read_uintN` from
a source that delivers exactly the bytes the target received returns `MZ_OK`
with the value `v`. -/
theorem uint_write_then_read_roundtrip {τ σ : Type} (tgt : mz_stream τ)
    (received : τ → List Nat) (src : mz_stream σ) (content : σ → List Nat)
    (htgt : AcceptsWrites tgt received) (hsrc : DeliversBytes src content)
    (t : τ) (s : σ) (old v : Nat) :
    (v < 2 ^ 8 →
      received (mz_stream_write_uint8 (some tgt) t v).2 = received t ++ content s →
      (mz_stream_write_uint8 (some tgt) t v).1 = MZ_OK ∧
      (mz_stream_read_uint8 (some src) s old).1 = MZ_OK ∧
      (mz_stream_read_uint8 (some src) s old).2.1 = v) ∧
    (v < 2 ^ 16 →
      received (mz_stream_write_uint16 (some tgt) t v).2 = received t ++ content s →
      (mz_stream_write_uint16 (some tgt) t v).1 = MZ_OK ∧
      (mz_stream_read_uint16 (some src) s old).1 = MZ_OK ∧
      (mz_stream_read_uint16 (some src) s old).2.1 = v) ∧
    (v < 2 ^ 32 →
      received (mz_stream_write_uint32 (some tgt) t v).2 = received t ++ content s →
      (mz_stream_write_uint32 (some tgt) t v).1 = MZ_OK ∧
      (mz_stream_read_uint32 (some src) s old).1 = MZ_OK ∧
      (mz_stream_read_uint32 (some src) s old).2.1 = v) ∧
    (v < 2 ^ 64 →
      received (mz_stream_write_uint64 (some tgt) t v).2 = received t ++ content s →
      (mz_stream_write_uint64 (some tgt) t v).1 = MZ_OK ∧
      (mz_stream_read_uint64 (some src) s old).1 = MZ_OK ∧
      (mz_stream_read_uint64 (some src) s old).2.1 = v) := by
  refine ⟨?_, ?_, ?_, ?_⟩
  · intro hv hlink
    obtain ⟨hw1, hw2⟩ := htgt.write_value_fits t v 1 (by decide) (by decide) (by omega)
    unfold mz_stream_write_uint8 at hlink ⊢
    rw [hw2] at hlink
    have hc : content s = [v % 256] := by
      rw [← List.append_cancel_left hlink]; simp [le_bytes_succ, le_bytes_zero]
    obtain ⟨s2, hr, _⟩ := hsrc.read_uint8 s old _ _ hc
    rw [hr]
    exact ⟨hw1, rfl, by show v % 256 % 256 = v; omega⟩
  · intro hv hlink
    obtain ⟨hw1, hw2⟩ := htgt.write_value_fits t v 2 (by decide) (by decide) (by omega)
    unfold mz_stream_write_uint16 at hlink ⊢
    rw [hw2] at hlink
    have hc : content s = [v % 256, v / 256 % 256] := by
      rw [← List.append_cancel_left hlink]; simp [le_bytes_succ, le_bytes_zero]
    obtain ⟨s2, hr, _⟩ := hsrc.read_uint16 s old _ _ _ hc
    rw [hr]
    refine ⟨hw1, rfl, ?_⟩
    show v % 256 % 256 + v / 256 % 256 % 256 * 256 = v
    omega
  · intro hv hlink
    obtain ⟨hw1, hw2⟩ := htgt.write_value_fits t v 4 (by decide) (by decide) (by omega)
    unfold mz_stream_write_uint32 at hlink ⊢
    rw [hw2] at hlink
    have hc : content s =
        [v % 256, v / 256 % 256, v / 256 / 256 % 256, v / 256 / 256 / 256 % 256] := by
      rw [← List.append_cancel_left hlink]; simp [le_bytes_succ, le_bytes_zero]
    obtain ⟨s2, hr, _⟩ := hsrc.read_uint32 s old _ _ _ _ _ hc
    rw [hr]
    refine ⟨hw1, rfl, ?_⟩
    show v % 256 % 256 + v / 256 % 256 % 256 * 256 + v / 256 / 256 % 256 % 256 * 256 ^ 2 +
      v / 256 / 256 / 256 % 256 % 256 * 256 ^ 3 = v
    omega
  · intro hv hlink
    obtain ⟨hw1, hw2⟩ := htgt.write_value_fits t v 8 (by decide) (by decide) (by omega)
    unfold mz_stream_write_uint64 at hlink ⊢
    rw [hw2] at hlink
    have hc : content s =
        [v % 256, v / 256 % 256, v / 256 / 256 % 256, v / 256 / 256 / 256 % 256,
          v / 256 / 256 / 256 / 256 % 256, v / 256 / 256 / 256 / 256 / 256 % 256,
          v / 256 / 256 / 256 / 256 / 256 / 256 % 256,
          v / 256 / 256 / 256 / 256 / 256 / 256 / 256 % 256] := by
      rw [← List.append_cancel_left hlink]; simp [le_bytes_succ, le_bytes_zero]
    obtain ⟨s2, hr, _⟩ := hsrc.read_uint64 s old _ _ _ _ _ _ _ _ _ hc
    rw [hr]
    refine ⟨hw1, rfl, ?_⟩
    show v % 256 % 256 + v / 256 % 256 % 256 * 256 + v / 256 / 256 % 256 % 256 * 256 ^ 2 +
      v / 256 / 256 / 256 % 256 % 256 * 256 ^ 3 +
      v / 256 / 256 / 256 / 256 % 256 % 256 * 256 ^ 4 +
      v / 256 / 256 / 256 / 256 / 256 % 256 % 256 * 256 ^ 5 +
      v / 256 / 256 / 256 / 256 / 256 / 256 % 256 % 256 * 256 ^ 6 +
      v / 256 / 256 / 256 / 256 / 256 / 256 / 256 % 256 % 256 * 256 ^ 7 = v
    omega

/-- Witness of C1: the value `0x1234` through the 16-bit pair over the in-memory
streams. -/
theorem uint_write_then_read_roundtrip_witness :
    (0x1234 < 2 ^ 16) ∧
    (mz_stream_write_uint16 (some memSink) [] 0x1234).2 = [0x34, 0x12] ∧
    (mz_stream_write_uint16 (some memSink) [] 0x1234).1 = MZ_OK ∧
    (mz_stream_read_uint16 (some memSource) [0x34, 0x12] 0).1 = MZ_OK ∧
    (mz_stream_read_uint16 (some memSource) [0x34, 0x12] 0).2.1 = 0x1234 :=
  ⟨by decide, by decide,
    (uint_write_then_read_roundtrip memSink id memSource id memSink_accepts
      memSource_delivers [] [0x34, 0x12] 0 0x1234).2.1 (by decide) (by decide)⟩

/-- C2: for `len` in 1, 2, 4, 8 and `v < 2 ^ (8 * len)`, `mz_stream_write_value`
on an open stream with a write capability `wr` is exactly one call of `wr` with
the `len` little-endian bytes of `v` and the size `len` (its result decides the
return code, its state is the final state); byte `i` is `(v / 256 ^ i) % 256`. -/
theorem write_value_single_little_endian_write {σ : Type} (strm : mz_stream σ)
    (wr : σ → List Nat → Nat → Int × σ) (s : σ) (v len : Nat)
    (hlen : len = 1 ∨ len = 2 ∨ len = 4 ∨ len = 8) (hv : v < 2 ^ (8 * len))
    (hwr : strm.write = some wr) (hopen : passes_guard strm s) :
    mz_stream_write_value (some strm) s v len =
      (if (wr (state_after_guard strm s) (le_bytes v len) len).1 % 2 ^ 32 = (len : Int)
        then MZ_OK else MZ_STREAM_ERROR,
        (wr (state_after_guard strm s) (le_bytes v len) len).2) ∧
    (le_bytes v len).length = len ∧
    ∀ i, i < len → (le_bytes v len)[i]? = some (v / 256 ^ i % 256) := by
  have hpos : 0 < len := by omega
  have hfit : v / 256 ^ len = 0 := by
    apply Nat.div_eq_of_lt
    have : (256 : Nat) ^ len = 2 ^ (8 * len) := by rw [pow_mul]; norm_num
    omega
  refine ⟨?_, le_bytes_length v len, fun i hi => le_bytes_getElem? v len i hi⟩
  rw [mz_stream_write_value_eq]
  simp only [hfit, ne_eq, not_true_eq_false, if_false]
  rw [mz_stream_write_guarded strm wr s _ len hwr hopen hpos,
    List.take_of_length_le (by rw [le_bytes_length])]
  split <;> simp_all

/-- Witness of C2: `0x1234` in a two-byte field reaches the in-memory target as
`[0x34, 0x12]`. -/
theorem write_value_single_little_endian_write_witness :
    (0x1234 < 2 ^ (8 * 2)) ∧
    mz_stream_write_value (some memSink) [] 0x1234 2 = (MZ_OK, [0x34, 0x12]) :=
  ⟨by decide,
    (write_value_single_little_endian_write memSink (fun t buf n => ((n : Int), t ++ buf))
      [] 0x1234 2 (by decide) (by decide) rfl (memSink_accepts.sink_passes [])).1.trans
      (by decide)⟩

/-- C3: for a width `w` in 1, 2, 4, 8 and a value `v ≥ 2 ^ (8 * w)`,
`mz_stream_write_value` with `len = w` succeeds on an accepting target and the
target receives `w` bytes `0xff`; the matching `mz_stream_read_uintN` on a source
delivering `w` bytes `0xff` returns `MZ_OK` with the value `2 ^ (8 * w) - 1`. -/
theorem write_value_overflow_clamps {τ σ : Type} (tgt : mz_stream τ)
    (received : τ → List Nat) (src : mz_stream σ) (content : σ → List Nat)
    (htgt : AcceptsWrites tgt received) (hsrc : DeliversBytes src content)
    (t : τ) (s : σ) (old : Nat) :
    (∀ w v, (w = 1 ∨ w = 2 ∨ w = 4 ∨ w = 8) → 2 ^ (8 * w) ≤ v →
      (mz_stream_write_value (some tgt) t v w).1 = MZ_OK ∧
      received (mz_stream_write_value (some tgt) t v w).2 =
        received t ++ List.replicate w 0xff) ∧
    (content s = List.replicate 1 0xff →
      (mz_stream_read_uint8 (some src) s old).1 = MZ_OK ∧
      (mz_stream_read_uint8 (some src) s old).2.1 = 2 ^ (8 * 1) - 1) ∧
    (content s = List.replicate 2 0xff →
      (mz_stream_read_uint16 (some src) s old).1 = MZ_OK ∧
      (mz_stream_read_uint16 (some src) s old).2.1 = 2 ^ (8 * 2) - 1) ∧
    (content s = List.replicate 4 0xff →
      (mz_stream_read_uint32 (some src) s old).1 = MZ_OK ∧
      (mz_stream_read_uint32 (some src) s old).2.1 = 2 ^ (8 * 4) - 1) ∧
    (content s = List.replicate 8 0xff →
      (mz_stream_read_uint64 (some src) s old).1 = MZ_OK ∧
      (mz_stream_read_uint64 (some src) s old).2.1 = 2 ^ (8 * 8) - 1) := by
  refine ⟨?_, ?_, ?_, ?_, ?_⟩
  · intro w v hw hv
    have h256 : (256 : Nat) ^ w = 2 ^ (8 * w) := by rw [pow_mul]; norm_num
    exact htgt.write_value_clamps t v w (by omega) (by omega) (by omega)
  · intro hc
    obtain ⟨s2, hr, _⟩ := hsrc.read_uint8 s old 0xff [] hc
    rw [hr]
    exact ⟨rfl, by norm_num⟩
  · intro hc
    obtain ⟨s2, hr, _⟩ := hsrc.read_uint16 s old 0xff 0xff [] hc
    rw [hr]
    exact ⟨rfl, by norm_num⟩
  · intro hc
    obtain ⟨s2, hr, _⟩ := hsrc.read_uint32 s old 0xff 0xff 0xff 0xff [] hc
    rw [hr]
    exact ⟨rfl, by norm_num⟩
  · intro hc
    obtain ⟨s2, hr, _⟩ :=
      hsrc.read_uint64 s old 0xff 0xff 0xff 0xff 0xff 0xff 0xff 0xff [] hc
    rw [hr]
    exact ⟨rfl, by norm_num⟩

/-- Witness of C3: `0x10000` does not fit two bytes; the in-memory target
receives `[0xff, 0xff]`, which decodes to `65535`. -/
theorem write_value_overflow_clamps_witness :
    (2 ^ (8 * 2) ≤ 0x10000) ∧
    (mz_stream_write_value (some memSink) [] 0x10000 2).2 = [0xff, 0xff] ∧
    (mz_stream_read_uint16 (some memSource) [0xff, 0xff] 0).2.1 = 65535 :=
  ⟨by decide,
    ((write_value_overflow_clamps memSink id memSource id memSink_accepts
      memSource_delivers [] [0xff, 0xff] 0).1 2 0x10000 (by decide) (by decide)).2,
    ((write_value_overflow_clamps memSink id memSource id memSink_accepts
      memSource_delivers [] [0xff, 0xff] 0).2.2.1 rfl).2⟩

/-! ## Lemmas: packed date codec -/

theorem and_shifted_mask (x j k : Nat) :
    x &&& ((2 ^ j - 1) <<< k) = (x >>> k % 2 ^ j) <<< k := by
  apply Nat.eq_of_testBit_eq
  intro i
  rw [← Nat.and_pow_two_sub_one_eq_mod]
  simp only [Nat.testBit_and, Nat.testBit_shiftLeft, Nat.testBit_shiftRight,
    Nat.testBit_two_pow_sub_one]
  by_cases h : i ≥ k
  · simp [h, Nat.add_sub_cancel' h]
  · simp [h]

/-- A masked and shifted-down bit field is a quotient and a remainder. -/
theorem mask_field (x j k : Nat) :
    (x &&& ((2 ^ j - 1) * 2 ^ k)) / 2 ^ k = x / 2 ^ k % 2 ^ j := by
  rw [← Nat.shiftLeft_eq, and_shifted_mask, Nat.shiftLeft_eq, Nat.shiftRight_eq_div_pow,
    Nat.mul_div_cancel _ (Nat.pos_pow_of_pos k (by decide))]

/-- The fields written by `mz_dosdate_to_raw_tm`, in quotient and remainder form. -/
theorem mz_dosdate_to_raw_tm_fields (p : Nat) (old : tm) :
    mz_dosdate_to_raw_tm p old =
      { tm_sec := ((2 * (p % 32) : Nat) : Int)
        tm_min := ((p / 32 % 64 : Nat) : Int)
        tm_hour := ((p / 2048 % 32 : Nat) : Int)
        tm_mday := ((p / 65536 % 32 : Nat) : Int)
        tm_mon := (((p / 65536 / 32 % 16 + 65535) % 65536 : Nat) : Int)
        tm_year := ((p / 65536 / 512 % 128 + 80 : Nat) : Int)
        tm_wday := old.tm_wday
        tm_yday := old.tm_yday
        tm_isdst := -1 } := by
  have h16 : p >>> 16 = p / 65536 := Nat.shiftRight_eq_div_pow p 16
  have e1 : (p / 65536) &&& 0x1f = p / 65536 % 32 :=
    Nat.and_pow_two_sub_one_eq_mod (p / 65536) 5
  have e2 : ((p / 65536) &&& 0x1E0) / 0x20 = p / 65536 / 32 % 16 := mask_field _ 4 5
  have e3 : ((p / 65536) &&& 0x0FE00) / 0x0200 = p / 65536 / 512 % 128 := mask_field _ 7 9
  have e4 : (p &&& 0xF800) / 0x800 = p / 2048 % 32 := mask_field p 5 11
  have e5 : (p &&& 0x7E0) / 0x20 = p / 32 % 64 := mask_field p 6 5
  have e6 : p &&& 0x1f = p % 32 := Nat.and_pow_two_sub_one_eq_mod p 5
  have f1 : p / 65536 % 32 % 2 ^ 16 = p / 65536 % 32 := by omega
  have f2 : (p / 65536 / 32 % 16 + 2 ^ 64 - 1) % 2 ^ 64 % 2 ^ 16 =
      (p / 65536 / 32 % 16 + 65535) % 65536 := by omega
  have f3 : (p / 65536 / 512 % 128 + 80) % 2 ^ 64 % 2 ^ 16 = p / 65536 / 512 % 128 + 80 := by
    omega
  have f4 : p / 2048 % 32 % 2 ^ 16 = p / 2048 % 32 := by omega
  have f5 : p / 32 % 64 % 2 ^ 16 = p / 32 % 64 := by omega
  have f6 : 2 * (p % 32) % 2 ^ 64 % 2 ^ 16 = 2 * (p % 32) := by omega
  unfold mz_dosdate_to_raw_tm
  simp only [h16, e1, e2, e3, e4, e5, e6, f1, f2, f3, f4, f5, f6]

/-- The range check passes exactly when every field is in its range. -/
theorem mz_invalid_date_eq_zero_iff (ptm : tm) :
    mz_invalid_date ptm = 0 ↔
      (0 ≤ ptm.tm_year ∧ ptm.tm_year ≤ 207) ∧ (0 ≤ ptm.tm_mon ∧ ptm.tm_mon ≤ 11) ∧
      (1 ≤ ptm.tm_mday ∧ ptm.tm_mday ≤ 31) ∧ (0 ≤ ptm.tm_hour ∧ ptm.tm_hour ≤ 23) ∧
      (0 ≤ ptm.tm_min ∧ ptm.tm_min ≤ 59) ∧ (0 ≤ ptm.tm_sec ∧ ptm.tm_sec ≤ 59) := by
  unfold mz_invalid_date datevalue_in_range
  constructor
  · intro h
    by_contra hc
    rw [if_pos] at h
    · exact absurd h (by decide)
    · simp only [Bool.or_eq_true, Bool.not_eq_true', Bool.and_eq_false_iff,
        decide_eq_false_iff_not]
      omega
  · intro h
    rw [if_neg]
    simp only [Bool.or_eq_true, Bool.not_eq_true', Bool.and_eq_false_iff,
      decide_eq_false_iff_not]
    omega

/-- On a calendar value that passes the range check the packed result is the
date word times `2 ^ 16` plus the time word. -/
theorem mz_tm_to_dosdate_valid (ptm : tm) (h : mz_invalid_date ptm = 0) :
    (mz_tm_to_dosdate ptm : Int) =
      (ptm.tm_mday + 32 * (ptm.tm_mon + 1) + 512 * normalized_year ptm.tm_year) * 65536 +
        (ptm.tm_sec / 2 + 32 * ptm.tm_min + 2048 * ptm.tm_hour) := by
  obtain ⟨hy, hm, hd, hh, hmi, hs⟩ := (mz_invalid_date_eq_zero_iff ptm).mp h
  have hny : 0 ≤ normalized_year ptm.tm_year ∧ normalized_year ptm.tm_year ≤ 127 := by
    unfold normalized_year
    split
    · omega
    · split <;> omega
  have htd : Int.tdiv ptm.tm_sec 2 = ptm.tm_sec / 2 := Int.tdiv_eq_ediv hs.1 (by decide)
  unfold mz_tm_to_dosdate
  simp only [h, ne_eq, not_true_eq_false, if_false, htd, to_uint32]
  generalize normalized_year ptm.tm_year = y at hny ⊢
  have hd16 : ((ptm.tm_mday + 32 * (ptm.tm_mon + 1) + 512 * y) * 2 ^ 16 % 2 ^ 32).toNat =
      2 ^ 16 * (ptm.tm_mday + 32 * (ptm.tm_mon + 1) + 512 * y).toNat := by omega
  have ht16 : (((ptm.tm_sec / 2 + 32 * ptm.tm_min) % 2 ^ 32).toNat +
      2048 * (ptm.tm_hour % 2 ^ 32).toNat % 2 ^ 32) % 2 ^ 32 < 2 ^ 16 := by omega
  rw [hd16, ← Nat.mul_add_lt_is_or ht16]
  push_cast
  omega

/-- Decoding what `mz_tm_to_dosdate` produced from a calendar value with
`tm_year` in `[80, 207]` that passes the range check gives the same date and
time back, the second rounded down to an even one. -/
theorem mz_dosdate_to_raw_tm_of_encoded (ptm old : tm) (h : mz_invalid_date ptm = 0)
    (hy : 80 ≤ ptm.tm_year) :
    mz_dosdate_to_raw_tm (mz_tm_to_dosdate ptm) old =
      { tm_sec := 2 * (ptm.tm_sec / 2)
        tm_min := ptm.tm_min
        tm_hour := ptm.tm_hour
        tm_mday := ptm.tm_mday
        tm_mon := ptm.tm_mon
        tm_year := ptm.tm_year
        tm_wday := old.tm_wday
        tm_yday := old.tm_yday
        tm_isdst := -1 } := by
  obtain ⟨hy2, hm, hd, hh, hmi, hs⟩ := (mz_invalid_date_eq_zero_iff ptm).mp h
  have hp := mz_tm_to_dosdate_valid ptm h
  have hny : normalized_year ptm.tm_year = ptm.tm_year - 80 := by
    unfold normalized_year
    rw [if_neg (by omega), if_pos hy]
  rw [hny] at hp
  rw [mz_dosdate_to_raw_tm_fields]
  generalize mz_tm_to_dosdate ptm = p at hp
  have g1 : ((2 * (p % 32) : Nat) : Int) = 2 * (ptm.tm_sec / 2) := by omega
  have g2 : ((p / 32 % 64 : Nat) : Int) = ptm.tm_min := by omega
  have g3 : ((p / 2048 % 32 : Nat) : Int) = ptm.tm_hour := by omega
  have g4 : ((p / 65536 % 32 : Nat) : Int) = ptm.tm_mday := by omega
  have g5 : (((p / 65536 / 32 % 16 + 65535) % 65536 : Nat) : Int) = ptm.tm_mon := by omega
  have g6 : ((p / 65536 / 512 % 128 + 80 : Nat) : Int) = ptm.tm_year := by omega
  rw [g1, g2, g3, g4, g5, g6]

theorem mz_dosdate_to_tm_of_valid (p : Nat) (old : tm)
    (h : mz_invalid_date (mz_dosdate_to_raw_tm p old) = 0) :
    mz_dosdate_to_tm p old = (0, mz_dosdate_to_raw_tm p old) := by
  unfold mz_dosdate_to_tm
  simp only [h, ne_eq, not_true_eq_false, if_false]

theorem mz_dosdate_to_tm_of_invalid (p : Nat) (old : tm)
    (h : mz_invalid_date (mz_dosdate_to_raw_tm p old) ≠ 0) :
    mz_dosdate_to_tm p old = (-1, tm_zero) := by
  unfold mz_dosdate_to_tm
  simp only [h, ne_eq, not_false_eq_true, if_true]

/-! ## Claims: packed date codec -/

/-- C4 (as amended): for every calendar value with `tm_year` in `[80, 207]`
(years since 1900, the calendar years 1980 to 2107), month in `[0, 11]`, day in
`[1, 31]`, hour in `[0, 23]`, minute in `[0, 59]` and even second in `[0, 58]`,
`mz_dosdate_to_tm` of the result of `mz_tm_to_dosdate` returns 0 and yields the
same year, month, day, hour, minute and second. -/
theorem dosdate_roundtrip_years_since_1900 (ptm old : tm)
    (hy : 80 ≤ ptm.tm_year ∧ ptm.tm_year ≤ 207) (hm : 0 ≤ ptm.tm_mon ∧ ptm.tm_mon ≤ 11)
    (hd : 1 ≤ ptm.tm_mday ∧ ptm.tm_mday ≤ 31) (hh : 0 ≤ ptm.tm_hour ∧ ptm.tm_hour ≤ 23)
    (hmi : 0 ≤ ptm.tm_min ∧ ptm.tm_min ≤ 59)
    (hs : 0 ≤ ptm.tm_sec ∧ ptm.tm_sec ≤ 58 ∧ ptm.tm_sec % 2 = 0) :
    (mz_dosdate_to_tm (mz_tm_to_dosdate ptm) old).1 = 0 ∧
    (mz_dosdate_to_tm (mz_tm_to_dosdate ptm) old).2.tm_year = ptm.tm_year ∧
    (mz_dosdate_to_tm (mz_tm_to_dosdate ptm) old).2.tm_mon = ptm.tm_mon ∧
    (mz_dosdate_to_tm (mz_tm_to_dosdate ptm) old).2.tm_mday = ptm.tm_mday ∧
    (mz_dosdate_to_tm (mz_tm_to_dosdate ptm) old).2.tm_hour = ptm.tm_hour ∧
    (mz_dosdate_to_tm (mz_tm_to_dosdate ptm) old).2.tm_min = ptm.tm_min ∧
    (mz_dosdate_to_tm (mz_tm_to_dosdate ptm) old).2.tm_sec = ptm.tm_sec := by
  have hvalid : mz_invalid_date ptm = 0 :=
    (mz_invalid_date_eq_zero_iff ptm).mpr ⟨by omega, hm, hd, hh, hmi, by omega⟩
  have hraw := mz_dosdate_to_raw_tm_of_encoded ptm old hvalid hy.1
  have hsec : 2 * (ptm.tm_sec / 2) = ptm.tm_sec := by omega
  rw [hsec] at hraw
  have hrv : mz_invalid_date (mz_dosdate_to_raw_tm (mz_tm_to_dosdate ptm) old) = 0 := by
    rw [hraw]
    exact (mz_invalid_date_eq_zero_iff _).mpr ⟨by simp; omega, hm, hd, hh, hmi, by simp; omega⟩
  rw [mz_dosdate_to_tm_of_valid _ _ hrv, hraw]
  exact ⟨rfl, rfl, rfl, rfl, rfl, rfl, rfl⟩

/-- Witness of C4 (as amended): the last representable date, 2107-12-31
23:59:58 with `tm_year = 207`. -/
theorem dosdate_roundtrip_years_since_1900_witness :
    (mz_dosdate_to_tm (mz_tm_to_dosdate last_date) tm_zero).1 = 0 ∧
    (mz_dosdate_to_tm (mz_tm_to_dosdate last_date) tm_zero).2.tm_year = 207 :=
  ⟨(dosdate_roundtrip_years_since_1900 last_date tm_zero (by decide) (by decide) (by decide)
      (by decide) (by decide) (by decide)).1,
    (dosdate_roundtrip_years_since_1900 last_date tm_zero (by decide) (by decide) (by decide)
      (by decide) (by decide) (by decide)).2.1⟩

/-- Counterexample to C4 as stated: with the year given as the absolute year
2005 (inside `[1980, 2107]`) and every other field in range, the round trip
does not succeed. -/
theorem dosdate_roundtrip_absolute_year_fails :
    ¬ ∀ ptm old : tm,
      (1980 ≤ ptm.tm_year ∧ ptm.tm_year ≤ 2107) → (0 ≤ ptm.tm_mon ∧ ptm.tm_mon ≤ 11) →
      (1 ≤ ptm.tm_mday ∧ ptm.tm_mday ≤ 31) → (0 ≤ ptm.tm_hour ∧ ptm.tm_hour ≤ 23) →
      (0 ≤ ptm.tm_min ∧ ptm.tm_min ≤ 59) →
      (0 ≤ ptm.tm_sec ∧ ptm.tm_sec ≤ 58 ∧ ptm.tm_sec % 2 = 0) →
      (mz_dosdate_to_tm (mz_tm_to_dosdate ptm) old).1 = 0 ∧
      (mz_dosdate_to_tm (mz_tm_to_dosdate ptm) old).2.tm_year = ptm.tm_year ∧
      (mz_dosdate_to_tm (mz_tm_to_dosdate ptm) old).2.tm_mon = ptm.tm_mon ∧
      (mz_dosdate_to_tm (mz_tm_to_dosdate ptm) old).2.tm_mday = ptm.tm_mday ∧
      (mz_dosdate_to_tm (mz_tm_to_dosdate ptm) old).2.tm_hour = ptm.tm_hour ∧
      (mz_dosdate_to_tm (mz_tm_to_dosdate ptm) old).2.tm_min = ptm.tm_min ∧
      (mz_dosdate_to_tm (mz_tm_to_dosdate ptm) old).2.tm_sec = ptm.tm_sec := by
  intro hall
  have h := hall (new_year_day 2005) tm_zero (by decide) (by decide) (by decide)
    (by decide) (by decide) (by decide)
  exact absurd h.1 (by decide)

/-- C5: for every calendar value that `mz_tm_to_dosdate` accepts (the range
check passes), the upper 16 bits of the result are exactly
`day + 32 * (month + 1) + 512 * year_offset` and the lower 16 bits exactly
`second / 2 + 32 * minute + 2048 * hour`, with `year_offset` the normalised
year; both sums are below `2 ^ 16`, the result is below `2 ^ 32`, and each field
can be read back from its own bits (no field carries into a neighbour). -/
theorem tm_to_dosdate_packs_fields (ptm : tm) (h : mz_invalid_date ptm = 0) :
    (mz_tm_to_dosdate ptm : Int) / 2 ^ 16 =
      ptm.tm_mday + 32 * (ptm.tm_mon + 1) + 512 * normalized_year ptm.tm_year ∧
    (mz_tm_to_dosdate ptm : Int) % 2 ^ 16 =
      ptm.tm_sec / 2 + 32 * ptm.tm_min + 2048 * ptm.tm_hour ∧
    (0 ≤ ptm.tm_mday + 32 * (ptm.tm_mon + 1) + 512 * normalized_year ptm.tm_year ∧
      ptm.tm_mday + 32 * (ptm.tm_mon + 1) + 512 * normalized_year ptm.tm_year < 2 ^ 16) ∧
    (0 ≤ ptm.tm_sec / 2 + 32 * ptm.tm_min + 2048 * ptm.tm_hour ∧
      ptm.tm_sec / 2 + 32 * ptm.tm_min + 2048 * ptm.tm_hour < 2 ^ 16) ∧
    mz_tm_to_dosdate ptm < 2 ^ 32 ∧
    ((mz_tm_to_dosdate ptm : Int) / 2 ^ 16 % 32 = ptm.tm_mday ∧
      (mz_tm_to_dosdate ptm : Int) / 2 ^ 21 % 16 = ptm.tm_mon + 1 ∧
      (mz_tm_to_dosdate ptm : Int) / 2 ^ 25 % 128 = normalized_year ptm.tm_year ∧
      (mz_tm_to_dosdate ptm : Int) % 32 = ptm.tm_sec / 2 ∧
      (mz_tm_to_dosdate ptm : Int) / 2 ^ 5 % 64 = ptm.tm_min ∧
      (mz_tm_to_dosdate ptm : Int) / 2 ^ 11 % 32 = ptm.tm_hour) := by
  obtain ⟨hy, hm, hd, hh, hmi, hs⟩ := (mz_invalid_date_eq_zero_iff ptm).mp h
  have hp := mz_tm_to_dosdate_valid ptm h
  have hny : 0 ≤ normalized_year ptm.tm_year ∧ normalized_year ptm.tm_year ≤ 127 := by
    unfold normalized_year
    split
    · omega
    · split <;> omega
  generalize normalized_year ptm.tm_year = y at hp hny ⊢
  generalize mz_tm_to_dosdate ptm = p at hp ⊢
  refine ⟨by omega, by omega, by omega, by omega, by omega, by omega, by omega, by omega,
    by omega, by omega, by omega⟩

/-- Witness of C5: the last representable date packs to `0xFF9FBF7D`. -/
theorem tm_to_dosdate_packs_fields_witness :
    mz_invalid_date last_date = 0 ∧
    (mz_tm_to_dosdate last_date : Int) / 2 ^ 16 = 31 + 32 * (11 + 1) + 512 * 127 ∧
    (mz_tm_to_dosdate last_date : Int) % 2 ^ 16 = 58 / 2 + 32 * 59 + 2048 * 23 :=
  ⟨by decide, (tm_to_dosdate_packs_fields last_date (by decide)).1,
    (tm_to_dosdate_packs_fields last_date (by decide)).2.1⟩

/-- C6: for every packed value, `mz_dosdate_to_tm` returns 0 with the output of
`mz_dosdate_to_raw_tm` when the raw month is in `0..11`, day in `1..31`, hour in
`0..23`, minute in `0..59` and second in `0..59`; otherwise it returns -1 and
every field of the output is 0.  In particular a raw month 12, day 0, hour 24,
minute 60 or second 60 gives -1 and the zeroed output. -/
theorem dosdate_to_tm_validates (p : Nat) (old : tm) :
    mz_dosdate_to_tm p old =
      (if (0 ≤ (mz_dosdate_to_raw_tm p old).tm_mon ∧ (mz_dosdate_to_raw_tm p old).tm_mon ≤ 11) ∧
          (1 ≤ (mz_dosdate_to_raw_tm p old).tm_mday ∧
            (mz_dosdate_to_raw_tm p old).tm_mday ≤ 31) ∧
          (0 ≤ (mz_dosdate_to_raw_tm p old).tm_hour ∧
            (mz_dosdate_to_raw_tm p old).tm_hour ≤ 23) ∧
          (0 ≤ (mz_dosdate_to_raw_tm p old).tm_min ∧
            (mz_dosdate_to_raw_tm p old).tm_min ≤ 59) ∧
          (0 ≤ (mz_dosdate_to_raw_tm p old).tm_sec ∧
            (mz_dosdate_to_raw_tm p old).tm_sec ≤ 59)
        then (0, mz_dosdate_to_raw_tm p old)
        else (-1, tm_zero)) ∧
    ((mz_dosdate_to_raw_tm p old).tm_mon = 12 ∨ (mz_dosdate_to_raw_tm p old).tm_mday = 0 ∨
      (mz_dosdate_to_raw_tm p old).tm_hour = 24 ∨ (mz_dosdate_to_raw_tm p old).tm_min = 60 ∨
      (mz_dosdate_to_raw_tm p old).tm_sec = 60 →
      mz_dosdate_to_tm p old = (-1, tm_zero)) := by
  have hyear : 0 ≤ (mz_dosdate_to_raw_tm p old).tm_year ∧
      (mz_dosdate_to_raw_tm p old).tm_year ≤ 207 := by
    rw [mz_dosdate_to_raw_tm_fields]
    show (0 : Int) ≤ ((p / 65536 / 512 % 128 + 80 : Nat) : Int) ∧
      ((p / 65536 / 512 % 128 + 80 : Nat) : Int) ≤ 207
    omega
  have hiff := mz_invalid_date_eq_zero_iff (mz_dosdate_to_raw_tm p old)
  constructor
  · split
    · next hr => exact mz_dosdate_to_tm_of_valid p old (hiff.mpr ⟨hyear, hr⟩)
    · next hr =>
      exact mz_dosdate_to_tm_of_invalid p old (fun h0 => hr (hiff.mp h0).2)
  · intro hbad
    apply mz_dosdate_to_tm_of_invalid
    intro h0
    have := hiff.mp h0
    omega

/-- Witness of C6: a date word with packed month 13 (raw month 12) on day 1. -/
theorem dosdate_to_tm_validates_witness :
    (mz_dosdate_to_raw_tm ((1 + 32 * 13) * 65536) last_date).tm_mon = 12 ∧
    mz_dosdate_to_tm ((1 + 32 * 13) * 65536) last_date = (-1, tm_zero) :=
  ⟨by decide,
    (dosdate_to_tm_validates ((1 + 32 * 13) * 65536) last_date).2 (Or.inl (by decide))⟩

/-- C7: `mz_tm_to_dosdate` returns 0 exactly when the original calendar value
fails the range check `mz_invalid_date`. -/
theorem tm_to_dosdate_zero_iff_invalid (ptm : tm) :
    mz_tm_to_dosdate ptm = 0 ↔ mz_invalid_date ptm ≠ 0 := by
  constructor
  · intro hz hvalid
    obtain ⟨hy, hm, hd, hh, hmi, hs⟩ := (mz_invalid_date_eq_zero_iff ptm).mp hvalid
    have hp := mz_tm_to_dosdate_valid ptm hvalid
    have hny : 0 ≤ normalized_year ptm.tm_year := by
      unfold normalized_year
      split
      · omega
      · split <;> omega
    rw [hz] at hp
    generalize normalized_year ptm.tm_year = y at hp hny
    omega
  · intro hinv
    unfold mz_tm_to_dosdate
    simp only [hinv, ne_eq, not_false_eq_true, if_true]

/-- C8, evaluated on 1 January 00:00:00 of the years 2005 and 1985: the year keys
5 and 85 are accepted and packed with the year offsets 25 and 5, while the
absolute year keys 2005 and 1985 are rejected with the sentinel 0. -/
theorem tm_to_dosdate_absolute_year_rejected :
    mz_tm_to_dosdate (new_year_day 5) ≠ 0 ∧
    mz_tm_to_dosdate (new_year_day 5) / 2 ^ 25 = 25 ∧
    mz_tm_to_dosdate (new_year_day 85) ≠ 0 ∧
    mz_tm_to_dosdate (new_year_day 85) / 2 ^ 25 = 5 ∧
    normalized_year 2005 = 25 ∧ normalized_year 1985 = 5 ∧
    mz_invalid_date (new_year_day 2005) = 1 ∧
    mz_tm_to_dosdate (new_year_day 2005) = 0 ∧
    mz_tm_to_dosdate (new_year_day 1985) = 0 := by
  decide

/-! ## Lemmas: stream copy -/

/-- One unfolding of the copy loop. -/
theorem mz_stream_copy_loop_succ {τ σ : Type} (target : Option (mz_stream τ))
    (source : Option (mz_stream σ)) (fuel : Nat) (t : τ) (s : σ) (buf : List Nat)
    (len : Int) :
    mz_stream_copy_loop target source (fuel + 1) t s buf len =
      if len > 0 then
        if (mz_stream_read source s buf
              (if len > (UINT16_MAX : Int) then (UINT16_MAX : Int) else len).toNat).1 < 0
        then some (MZ_STREAM_ERROR, t,
          (mz_stream_read source s buf
              (if len > (UINT16_MAX : Int) then (UINT16_MAX : Int) else len).toNat).2.2)
        else
          if (mz_stream_write target t
                (mz_stream_read source s buf
                  (if len > (UINT16_MAX : Int) then (UINT16_MAX : Int) else len).toNat).2.1
                (mz_stream_read source s buf
                  (if len > (UINT16_MAX : Int) then (UINT16_MAX : Int) else len).toNat).1.toNat).1 ≠
              (mz_stream_read source s buf
                (if len > (UINT16_MAX : Int) then (UINT16_MAX : Int) else len).toNat).1
          then some (MZ_STREAM_ERROR,
            (mz_stream_write target t
                (mz_stream_read source s buf
                  (if len > (UINT16_MAX : Int) then (UINT16_MAX : Int) else len).toNat).2.1
                (mz_stream_read source s buf
                  (if len > (UINT16_MAX : Int) then (UINT16_MAX : Int) else len).toNat).1.toNat).2,
            (mz_stream_read source s buf
                (if len > (UINT16_MAX : Int) then (UINT16_MAX : Int) else len).toNat).2.2)
          else mz_stream_copy_loop target source fuel
            (mz_stream_write target t
                (mz_stream_read source s buf
                  (if len > (UINT16_MAX : Int) then (UINT16_MAX : Int) else len).toNat).2.1
                (mz_stream_read source s buf
                  (if len > (UINT16_MAX : Int) then (UINT16_MAX : Int) else len).toNat).1.toNat).2
            (mz_stream_read source s buf
                (if len > (UINT16_MAX : Int) then (UINT16_MAX : Int) else len).toNat).2.2
            (mz_stream_read source s buf
                (if len > (UINT16_MAX : Int) then (UINT16_MAX : Int) else len).toNat).2.1
            (len - (mz_stream_read source s buf
                (if len > (UINT16_MAX : Int) then (UINT16_MAX : Int) else len).toNat).1)
      else some (MZ_OK, t, s) := by
  rfl

/-- The chunk size requested for a remaining length `len > 0`. -/
theorem chunk_size (len : Nat) (hpos : 0 < len) :
    (if (len : Int) > (UINT16_MAX : Int) then (UINT16_MAX : Int) else (len : Int)).toNat =
      min len 65535 := by
  unfold UINT16_MAX
  split <;> omega

/-- Correctness of the copy loop for a target that accepts writes and a source
whose reads of at most 65535 bytes, in states satisfying `Inv`, deliver between
1 and the requested number of the bytes held and keep `Inv`. -/
theorem mz_stream_copy_loop_spec {τ σ : Type} (tgt : mz_stream τ)
    (received : τ → List Nat) (source : Option (mz_stream σ)) (content : σ → List Nat)
    (Inv : σ → Prop) (htgt : AcceptsWrites tgt received)
    (hread : ∀ s buf n, Inv s → 0 < n → n ≤ 65535 → n ≤ (content s).length →
      ∃ k : Nat, 1 ≤ k ∧ k ≤ n ∧
        (mz_stream_read source s buf n).1 = (k : Int) ∧
        (mz_stream_read source s buf n).2.1 = overlay ((content s).take k) buf ∧
        content (mz_stream_read source s buf n).2.2 = (content s).drop k ∧
        Inv (mz_stream_read source s buf n).2.2) :
    ∀ (fuel len : Nat) (t : τ) (s : σ) (buf : List Nat), len < fuel → Inv s →
      len ≤ (content s).length →
      ∃ t2 s2, mz_stream_copy_loop (some tgt) source fuel t s buf (len : Int) =
          some (MZ_OK, t2, s2) ∧
        received t2 = received t ++ (content s).take len ∧
        content s2 = (content s).drop len ∧ Inv s2 := by
  intro fuel
  induction fuel with
  | zero => intro len t s buf hlt; omega
  | succ fuel ih =>
    intro len t s buf hlt hinv hlen
    rw [mz_stream_copy_loop_succ]
    by_cases hpos : 0 < len
    · have hposi : (len : Int) > 0 := by omega
      rw [if_pos hposi, chunk_size len hpos]
      obtain ⟨k, hk1, hk2, hr1, hr2, hr3, hr4⟩ :=
        hread s buf (min len 65535) hinv (by omega) (by omega) (by omega)
      have hklen : k ≤ (content s).length := by omega
      obtain ⟨hw1, hw2⟩ := htgt.write_spec t (overlay ((content s).take k) buf) k hk1
      have htake : (overlay ((content s).take k) buf).take k = (content s).take k := by
        unfold overlay
        rw [List.take_append_of_le_length (by simp [List.length_take]; omega)]
        rw [List.take_of_length_le (by simp [List.length_take])]
      rw [htake] at hw2
      simp only [hr1, hr2, Int.toNat_ofNat, hw1, ne_eq, not_true_eq_false, if_false]
      rw [if_neg (by omega)]
      have hsub : (len : Int) - (k : Int) = ((len - k : Nat) : Int) := by omega
      rw [hsub]
      obtain ⟨t2, s2, hrun, hrec, hcont, hinv2⟩ :=
        ih (len - k) _ _ (overlay ((content s).take k) buf) (by omega) hr4
          (by rw [hr3, List.length_drop]; omega)
      refine ⟨t2, s2, hrun, ?_, ?_, hinv2⟩
      · rw [hrec, hw2, hr3, List.append_assoc]
        congr 1
        have hsplit : len = k + (len - k) := by omega
        conv_rhs => rw [hsplit, List.take_add]
      · rw [hcont, hr3, List.drop_drop]
        congr 1
        omega
    · have hz : len = 0 := by omega
      subst hz
      rw [if_neg (by simp)]
      exact ⟨t, s, rfl, by simp, by simp, hinv⟩

/-- A read through the logging stream is the read of the stream itself, with
the requested size appended to the log. -/
theorem logReads_read {σ : Type} {strm : mz_stream σ} {content : σ → List Nat}
    (h : DeliversBytes strm content) (s : σ) (log buf : List Nat) (n : Nat) :
    mz_stream_read (some (logReads strm)) (s, log) buf n =
      ((mz_stream_read (some strm) s buf n).1, (mz_stream_read (some strm) s buf n).2.1,
        ((mz_stream_read (some strm) s buf n).2.2, log ++ [n])) := by
  obtain ⟨rd, hrd⟩ := h.has_read
  unfold mz_stream_read logReads
  simp only [hrd, Option.map_some']
  cases hf : strm.is_open with
  | none => rfl
  | some f =>
    have hok := (h.is_open_ok f hf s).1
    simp [hok]

/-! ## Claims: stream copy -/

/-- C9: for every length `len ≥ 0`, every source that holds at least `len`
bytes and whose reads return between 1 and the requested number of bytes, and
every target that accepts each write in full, `mz_stream_copy` (given more fuel
than `len`) returns `MZ_OK`, the target has received exactly the first `len`
bytes held by the source, in order, and the source has advanced by exactly `len`
bytes.  Run on the source with a log of its read requests, the result is the
same and no logged request exceeds 65535. -/
theorem stream_copy_transfers_exactly {τ σ : Type} (tgt : mz_stream τ)
    (received : τ → List Nat) (src : mz_stream σ) (content : σ → List Nat)
    (htgt : AcceptsWrites tgt received) (hsrc : DeliversBytes src content)
    (t : τ) (s : σ) (len fuel : Nat) (hlen : len ≤ (content s).length)
    (hfuel : len < fuel) :
    (∃ t2 s2, mz_stream_copy fuel (some tgt) t (some src) s (len : Int) =
        some (MZ_OK, t2, s2) ∧
      received t2 = received t ++ (content s).take len ∧
      content s2 = (content s).drop len) ∧
    (∃ t2 s2 log, mz_stream_copy fuel (some tgt) t (some (logReads src)) (s, [])
        (len : Int) = some (MZ_OK, t2, (s2, log)) ∧
      received t2 = received t ++ (content s).take len ∧
      content s2 = (content s).drop len ∧
      ∀ n ∈ log, n ≤ 65535) := by
  constructor
  · obtain ⟨t2, s2, hrun, hrec, hcont, _⟩ :=
      mz_stream_copy_loop_spec tgt received (some src) content (fun _ => True) htgt
        (by
          intro s buf n _ hn _ hle
          obtain ⟨k, hk1, hk2, hr1, hr2, hr3⟩ := hsrc.read_spec s buf n hn hle
          exact ⟨k, hk1, hk2, hr1, hr2, hr3, trivial⟩)
        fuel len t s (List.replicate UINT16_MAX 0) hfuel trivial hlen
    exact ⟨t2, s2, hrun, hrec, hcont⟩
  · obtain ⟨t2, s2, hrun, hrec, hcont, hlog⟩ :=
      mz_stream_copy_loop_spec tgt received (some (logReads src))
        (fun p : σ × List Nat => content p.1) (fun p => ∀ n ∈ p.2, n ≤ 65535) htgt
        (by
          intro p buf n hinv hn hn16 hle
          obtain ⟨k, hk1, hk2, hr1, hr2, hr3⟩ := hsrc.read_spec p.1 buf n hn hle
          refine ⟨k, hk1, hk2, ?_, ?_, ?_, ?_⟩
          · rw [logReads_read hsrc]; exact hr1
          · rw [logReads_read hsrc]; exact hr2
          · rw [logReads_read hsrc]; exact hr3
          · rw [logReads_read hsrc]
            intro m hm
            rcases List.mem_append.mp hm with hm | hm
            · exact hinv m hm
            · rw [List.mem_singleton.mp hm]; exact hn16)
        fuel len t (s, []) (List.replicate UINT16_MAX 0) hfuel
        (by intro n hn; exact absurd hn (List.not_mem_nil n)) hlen
    exact ⟨t2, s2.1, s2.2, hrun, hrec, hcont, hlog⟩

/-- Witness of C9: three of five bytes, and 65536 bytes (one more than a
chunk), between the in-memory streams. -/
theorem stream_copy_transfers_exactly_witness :
    mz_stream_copy 4 (some memSink) [] (some memSource) [1, 2, 3, 4, 5] 3 =
      some (MZ_OK, [1, 2, 3], [4, 5]) ∧
    ∃ t2 s2 log, mz_stream_copy 65537 (some memSink) [] (some (logReads memSource))
        (List.replicate 65536 7 ++ [1, 2], []) ((65536 : Nat) : Int) =
        some (MZ_OK, t2, (s2, log)) ∧
      id t2 = id [] ++ (id (List.replicate 65536 7 ++ [1, 2])).take 65536 ∧
      id s2 = (id (List.replicate 65536 7 ++ [1, 2])).drop 65536 ∧
      ∀ n ∈ log, n ≤ 65535 :=
  ⟨by decide,
    (stream_copy_transfers_exactly memSink id memSource id memSink_accepts memSource_delivers
      [] (List.replicate 65536 7 ++ [1, 2]) 65536 65537
      (by simp only [id, List.length_append, List.length_replicate]; omega) (by decide)).2⟩

/-- C10, evaluated on a source at its end of data: each read returns 0 bytes,
which is not negative, the empty write returns 0 as well, the remaining length
stays at 1, and the loop of `mz_stream_copy` does not end within any amount of
fuel. -/
theorem stream_copy_spins_on_empty_reads :
    (mz_stream_read (some memSource) [] (List.replicate UINT16_MAX 0) 1).1 = 0 ∧
    (mz_stream_error (some memSource) []).1 = 0 ∧
    ∀ fuel, mz_stream_copy fuel (some memSink) [] (some memSource) [] 1 = none := by
  refine ⟨by decide, by decide, ?_⟩
  intro fuel
  unfold mz_stream_copy
  induction fuel with
  | zero => rfl
  | succ fuel ih =>
    rw [mz_stream_copy_loop_succ]
    have hr : mz_stream_read (some memSource) [] (List.replicate UINT16_MAX 0)
        (if (1 : Int) > (UINT16_MAX : Int) then (UINT16_MAX : Int) else 1).toNat =
        (0, List.replicate UINT16_MAX 0, []) := by
      simp [mz_stream_read, memSource, overlay, MZ_OK]
    rw [hr]
    have hw : mz_stream_write (some memSink) [] (List.replicate UINT16_MAX 0) (0 : Int).toNat =
        (0, []) := by
      simp [mz_stream_write, memSink]
    simp only [hw]
    simpa using ih

/-! ## Lemmas: passthru stream -/

/-- The effect of one operation on the counters: a read adds its positive
result to `total_in`, a write adds its positive result to `total_out`, nothing
else changes a counter. -/
theorem passthru_step_counters {σ : Type} (op : passthru_op)
    (passthru : mz_stream_passthru σ) (s : σ) :
    (passthru_step op passthru s).2.1.total_in =
        passthru.total_in + sum_read_results [(op, (passthru_step op passthru s).1)] ∧
      (passthru_step op passthru s).2.1.total_out =
        passthru.total_out + sum_write_results [(op, (passthru_step op passthru s).1)] := by
  cases op with
  | op_read buf size =>
    simp only [passthru_step, mz_stream_passthru_read, sum_read_results, sum_write_results]
    split <;> simp
  | op_write buf size =>
    simp only [passthru_step, mz_stream_passthru_write, sum_read_results, sum_write_results]
    split <;> simp
  | _ => simp [passthru_step, mz_stream_passthru_open, mz_stream_passthru_is_open,
      mz_stream_passthru_tell, mz_stream_passthru_seek, mz_stream_passthru_close,
      mz_stream_passthru_error, sum_read_results, sum_write_results]

theorem sum_read_results_cons (x : passthru_op × Int) (rest : List (passthru_op × Int)) :
    sum_read_results (x :: rest) = sum_read_results [x] + sum_read_results rest := by
  obtain ⟨op, r⟩ := x
  cases op <;> simp [sum_read_results]

theorem sum_write_results_cons (x : passthru_op × Int) (rest : List (passthru_op × Int)) :
    sum_write_results (x :: rest) = sum_write_results [x] + sum_write_results rest := by
  obtain ⟨op, r⟩ := x
  cases op <;> simp [sum_write_results]

/-- After a run the counters are their initial values plus the sums of the
positive read and write results of the run. -/
theorem passthru_run_counters {σ : Type} (ops : List passthru_op)
    (passthru : mz_stream_passthru σ) (s : σ) :
    (passthru_run ops passthru s).2.1.total_in =
        passthru.total_in + sum_read_results (passthru_run ops passthru s).1 ∧
      (passthru_run ops passthru s).2.1.total_out =
        passthru.total_out + sum_write_results (passthru_run ops passthru s).1 := by
  induction ops generalizing passthru s with
  | nil => simp [passthru_run, sum_read_results, sum_write_results]
  | cons op ops ih =>
    obtain ⟨h1, h2⟩ := passthru_step_counters op passthru s
    obtain ⟨i1, i2⟩ := ih (passthru_step op passthru s).2.1 (passthru_step op passthru s).2.2
    simp only [passthru_run]
    rw [sum_read_results_cons, sum_write_results_cons, i1, i2, h1, h2]
    constructor <;> ring

/-! ## Claims: passthru stream -/

/-- C11: for a passthru stream made by `mz_stream_passthru_create` and bound to
any base stream, after any sequence of operations (opens, closes, reads, writes,
seeks, tells, ...) `mz_stream_passthru_get_total_in` is the sum of the positive
results of its reads and `mz_stream_passthru_get_total_out` the sum of the
positive results of its writes; negative and zero results add nothing. -/
theorem passthru_totals_are_sums {σ : Type} (base : Option (mz_stream σ))
    (ops : List passthru_op) (s : σ) :
    mz_stream_passthru_get_total_in
        (passthru_run ops (mz_stream_set_base mz_stream_passthru_create base).2 s).2.1 =
      sum_read_results
        (passthru_run ops (mz_stream_set_base mz_stream_passthru_create base).2 s).1 ∧
    mz_stream_passthru_get_total_out
        (passthru_run ops (mz_stream_set_base mz_stream_passthru_create base).2 s).2.1 =
      sum_write_results
        (passthru_run ops (mz_stream_set_base mz_stream_passthru_create base).2 s).1 := by
  obtain ⟨h1, h2⟩ :=
    passthru_run_counters ops (mz_stream_set_base mz_stream_passthru_create base).2 s
  unfold mz_stream_passthru_get_total_in mz_stream_passthru_get_total_out
  rw [h1, h2]
  simp [mz_stream_set_base, mz_stream_passthru_create]

/-- C16: a freshly created passthru stream has both counters 0; for every
operation, state and base, neither counter decreases; a read leaves `total_out`
and a write leaves `total_in` as it was; open, is_open, tell, seek, close,
error, get_total_in and get_total_out leave the passthru data (both counters)
as they were, and the getters return the counters. -/
theorem passthru_counters_monotone {σ : Type} (passthru : mz_stream_passthru σ) (s : σ) :
    ((mz_stream_passthru_create : mz_stream_passthru σ).total_in = 0 ∧
      (mz_stream_passthru_create : mz_stream_passthru σ).total_out = 0) ∧
    (∀ op, passthru.total_in ≤ (passthru_step op passthru s).2.1.total_in ∧
      passthru.total_out ≤ (passthru_step op passthru s).2.1.total_out) ∧
    (∀ buf size,
      (mz_stream_passthru_read passthru s buf size).2.2.1.total_out = passthru.total_out) ∧
    (∀ buf size,
      (mz_stream_passthru_write passthru s buf size).2.1.total_in = passthru.total_in) ∧
    (∀ path mode, (mz_stream_passthru_open passthru s path mode).2.1 = passthru) ∧
    (mz_stream_passthru_is_open passthru s).2.1 = passthru ∧
    (mz_stream_passthru_tell passthru s).2.1 = passthru ∧
    (∀ offset origin, (mz_stream_passthru_seek passthru s offset origin).2.1 = passthru) ∧
    (mz_stream_passthru_close passthru s).2.1 = passthru ∧
    (mz_stream_passthru_error passthru s).2.1 = passthru ∧
    mz_stream_passthru_get_total_in passthru = passthru.total_in ∧
    mz_stream_passthru_get_total_out passthru = passthru.total_out := by
  refine ⟨⟨rfl, rfl⟩, ?_, ?_, ?_, fun _ _ => rfl, rfl, rfl, fun _ _ => rfl, rfl, rfl, rfl, rfl⟩
  · intro op
    obtain ⟨h1, h2⟩ := passthru_step_counters op passthru s
    rw [h1, h2]
    cases op <;> simp only [sum_read_results, sum_write_results] <;>
      constructor <;> (try split) <;> omega
  · intro buf size
    simp only [mz_stream_passthru_read]
    split <;> rfl
  · intro buf size
    simp only [mz_stream_passthru_write]
    split <;> rfl

/-! ## Claims: stream interface -/

/-- C12 (as amended): for every stream handle that is present and has the write
capability, whatever else it has or lacks and open or not, `mz_stream_write`
with size 0 returns 0 and leaves the stream state untouched (neither the write
capability nor the `is_open` guard runs); an absent handle and a handle without
the write capability get `MZ_STREAM_ERROR`, the state untouched as well. -/
theorem write_size_zero_is_noop {σ : Type} (strm : mz_stream σ) (s : σ) (buf : List Nat) :
    (∀ wr, strm.write = some wr → mz_stream_write (some strm) s buf 0 = (0, s)) ∧
    (strm.write = none → mz_stream_write (some strm) s buf 0 = (MZ_STREAM_ERROR, s)) ∧
    mz_stream_write (none : Option (mz_stream σ)) s buf 0 = (MZ_STREAM_ERROR, s) := by
  refine ⟨?_, ?_, rfl⟩
  · intro wr hwr
    simp [mz_stream_write, hwr]
  · intro hwr
    simp [mz_stream_write, hwr]

/-- Witness of C12 (as amended): on the call-counting stream the empty write
returns 0 and the count stays 0. -/
theorem write_size_zero_is_noop_witness :
    mz_stream_write (some tickingStream) 0 [1, 2, 3] 0 = (0, 0) :=
  (write_size_zero_is_noop tickingStream 0 [1, 2, 3]).1 _ rfl

/-- Counterexample to C12 as stated: a handle without the write capability gets
`MZ_STREAM_ERROR`, not 0, for a write of size 0. -/
theorem write_size_zero_without_capability :
    ¬ ∀ (strm : mz_stream Unit) (s : Unit) (buf : List Nat),
      (mz_stream_write (some strm) s buf 0).1 = 0 := by
  intro hall
  exact absurd (hall bareStream () []) (by decide)

/-- C13: `mz_stream_read` returns `MZ_STREAM_ERROR`, with the buffer and the
state untouched by the read capability, when the handle is absent, when the
read capability is absent, and when `is_open` is present and reports anything
other than `MZ_OK` (the state is then the one `is_open` left); in every other
case the result, the bytes stored and the final state are those of the read
capability called once with the given size. -/
theorem read_dispatch_cases {σ : Type} (strm : mz_stream σ) (s : σ) (buf : List Nat)
    (size : Nat) :
    mz_stream_read (none : Option (mz_stream σ)) s buf size = (MZ_STREAM_ERROR, buf, s) ∧
    (strm.read = none → mz_stream_read (some strm) s buf size = (MZ_STREAM_ERROR, buf, s)) ∧
    (∀ rd f, strm.read = some rd → strm.is_open = some f → (f s).1 ≠ MZ_OK →
      mz_stream_read (some strm) s buf size = (MZ_STREAM_ERROR, buf, (f s).2)) ∧
    (∀ rd, strm.read = some rd → passes_guard strm s →
      mz_stream_read (some strm) s buf size =
        ((rd (state_after_guard strm s) size).1,
          overlay (rd (state_after_guard strm s) size).2.1 buf,
          (rd (state_after_guard strm s) size).2.2)) := by
  refine ⟨rfl, ?_, ?_, ?_⟩
  · intro hrd
    simp [mz_stream_read, hrd]
  · intro rd f hrd hf hne
    simp [mz_stream_read, hrd, hf, hne]
  · intro rd hrd hopen
    exact mz_stream_read_guarded strm rd s buf size hrd hopen

/-- Witness of C13: a read of two bytes from the in-memory source, and a read
from a handle without the read capability. -/
theorem read_dispatch_cases_witness :
    mz_stream_read (some memSource) [5, 6, 7] [0, 0, 0] 2 = (2, [5, 6, 0], [7]) ∧
    mz_stream_read (some bareStream) () [0] 1 = (MZ_STREAM_ERROR, [0], ()) :=
  ⟨((read_dispatch_cases memSource [5, 6, 7] [0, 0, 0] 2).2.2.2 _ rfl
      (memSource_delivers.source_passes _)).trans (by decide),
    (read_dispatch_cases bareStream () [0] 1).2.1 rfl⟩

/-- C14 (as amended): when the underlying read of `mz_stream_read_uint8` returns
0 bytes and `error()` reports no error, the call returns `MZ_OK` and the output
field is left holding what it held before the call. -/
theorem read_uint8_zero_bytes_keeps_output {σ : Type} (stream : Option (mz_stream σ))
    (s : σ) (old : Nat)
    (hread : (mz_stream_read stream s [0] 1).1 = 0)
    (herr : (mz_stream_error stream (mz_stream_read stream s [0] 1).2.2).1 = 0) :
    (mz_stream_read_uint8 stream s old).1 = MZ_OK ∧
      (mz_stream_read_uint8 stream s old).2.1 = old := by
  unfold mz_stream_read_uint8
  simp [hread, herr]

/-- Witness of C14 (as amended): the empty in-memory source and an output
holding 7. -/
theorem read_uint8_zero_bytes_keeps_output_witness :
    mz_stream_read_uint8 (some memSource) [] 7 = (MZ_OK, 7, []) :=
  Prod.ext
    (read_uint8_zero_bytes_keeps_output (some memSource) [] 7 (by decide) (by decide)).1
    (Prod.ext
      (read_uint8_zero_bytes_keeps_output (some memSource) [] 7 (by decide) (by decide)).2
      (by decide))

/-- Counterexample to C14 as stated: the read returns 0 bytes, `error()` reports
0, the call returns `MZ_OK`, and an output that held 7 still holds 7, not 0. -/
theorem read_uint8_zero_bytes_not_zeroed :
    ¬ ∀ (stream : Option (mz_stream (List Nat))) (s : List Nat) (old : Nat),
      (mz_stream_read stream s [0] 1).1 = 0 →
      (mz_stream_error stream (mz_stream_read stream s [0] 1).2.2).1 = 0 →
      (mz_stream_read_uint8 stream s old).1 = MZ_OK ∧
        (mz_stream_read_uint8 stream s old).2.1 = 0 := by
  intro hall
  have h := hall (some memSource) [] 7 (by decide) (by decide)
  exact absurd h.2 (by decide)

/-! ## Claims: packed date codec, continued -/

/-- C17: for every calendar value with `tm_year` in `[80, 207]`, `tm_mon` in
`[0, 11]`, `tm_mday` in `[1, 31]`, `tm_hour` in `[0, 23]`, `tm_min` in `[0, 59]`
and `tm_sec` in `[0, 59]`, `mz_dosdate_to_tm` of `mz_tm_to_dosdate` returns 0
with the same year, month, day, hour and minute and with `tm_isdst = -1`; the
decoded second is `tm_sec` when `tm_sec` is even and `tm_sec - 1` when it is
odd. -/
theorem dosdate_roundtrip_tm_convention (ptm old : tm)
    (hy : 80 ≤ ptm.tm_year ∧ ptm.tm_year ≤ 207) (hm : 0 ≤ ptm.tm_mon ∧ ptm.tm_mon ≤ 11)
    (hd : 1 ≤ ptm.tm_mday ∧ ptm.tm_mday ≤ 31) (hh : 0 ≤ ptm.tm_hour ∧ ptm.tm_hour ≤ 23)
    (hmi : 0 ≤ ptm.tm_min ∧ ptm.tm_min ≤ 59) (hs : 0 ≤ ptm.tm_sec ∧ ptm.tm_sec ≤ 59) :
    mz_dosdate_to_tm (mz_tm_to_dosdate ptm) old =
      (0, { tm_sec := if ptm.tm_sec % 2 = 0 then ptm.tm_sec else ptm.tm_sec - 1
            tm_min := ptm.tm_min
            tm_hour := ptm.tm_hour
            tm_mday := ptm.tm_mday
            tm_mon := ptm.tm_mon
            tm_year := ptm.tm_year
            tm_wday := old.tm_wday
            tm_yday := old.tm_yday
            tm_isdst := -1 }) := by
  have hvalid : mz_invalid_date ptm = 0 :=
    (mz_invalid_date_eq_zero_iff ptm).mpr ⟨by omega, hm, hd, hh, hmi, hs⟩
  have hraw := mz_dosdate_to_raw_tm_of_encoded ptm old hvalid hy.1
  have hsec : 2 * (ptm.tm_sec / 2) =
      if ptm.tm_sec % 2 = 0 then ptm.tm_sec else ptm.tm_sec - 1 := by
    split <;> omega
  rw [hsec] at hraw
  have hrv : mz_invalid_date (mz_dosdate_to_raw_tm (mz_tm_to_dosdate ptm) old) = 0 := by
    rw [hraw]
    refine (mz_invalid_date_eq_zero_iff _).mpr ⟨by simp; omega, hm, hd, hh, hmi, ?_⟩
    show (0 : Int) ≤ (if ptm.tm_sec % 2 = 0 then ptm.tm_sec else ptm.tm_sec - 1) ∧
      (if ptm.tm_sec % 2 = 0 then ptm.tm_sec else ptm.tm_sec - 1) ≤ 59
    split <;> omega
  rw [mz_dosdate_to_tm_of_valid _ _ hrv, hraw]

/-- Witness of C17: 1980-01-01 00:00:59 (`tm_year = 80`), an odd second. -/
theorem dosdate_roundtrip_tm_convention_witness :
    (mz_dosdate_to_tm (mz_tm_to_dosdate { new_year_day 80 with tm_sec := 59 }) last_date).1 = 0 ∧
    (mz_dosdate_to_tm (mz_tm_to_dosdate { new_year_day 80 with tm_sec := 59 })
      last_date).2.tm_sec = 58 ∧
    (mz_dosdate_to_tm (mz_tm_to_dosdate { new_year_day 80 with tm_sec := 59 })
      last_date).2.tm_isdst = -1 := by
  have h := dosdate_roundtrip_tm_convention { new_year_day 80 with tm_sec := 59 } last_date
    (by decide) (by decide) (by decide) (by decide) (by decide) (by decide)
  rw [h]
  decide

/-- C18: for every packed value `p` (a `uint64_t`) that `mz_dosdate_to_tm`
accepts (returns 0), `mz_tm_to_dosdate` of the decoded calendar value is
`p % 2 ^ 32`. -/
theorem dosdate_decode_then_encode (p : Nat) (old : tm)
    (h : (mz_dosdate_to_tm p old).1 = 0) :
    mz_tm_to_dosdate (mz_dosdate_to_tm p old).2 = p % 2 ^ 32 := by
  have hvalid : mz_invalid_date (mz_dosdate_to_raw_tm p old) = 0 := by
    by_contra hne
    rw [mz_dosdate_to_tm_of_invalid p old hne] at h
    exact absurd h (by decide)
  rw [mz_dosdate_to_tm_of_valid p old hvalid]
  have hp := mz_tm_to_dosdate_valid _ hvalid
  obtain ⟨hy, hm, hd, hh, hmi, hs⟩ := (mz_invalid_date_eq_zero_iff _).mp hvalid
  generalize mz_tm_to_dosdate (mz_dosdate_to_raw_tm p old) = q at hp ⊢
  rw [mz_dosdate_to_raw_tm_fields] at hp hy hm hd hh hmi hs
  simp only at hp hy hm hd hh hmi hs
  have hny : normalized_year ((p / 65536 / 512 % 128 + 80 : Nat) : Int) =
      ((p / 65536 / 512 % 128 : Nat) : Int) := by
    unfold normalized_year
    rw [if_neg (by omega), if_pos (by omega)]
    omega
  rw [hny] at hp
  omega

/-- Witness of C18: the packed form `0xFF9FBF7D` of the last representable
date, with bits set above the low 32. -/
theorem dosdate_decode_then_encode_witness :
    mz_tm_to_dosdate (mz_dosdate_to_tm (0xFF9FBF7D + 5 * 2 ^ 32) tm_zero).2 = 0xFF9FBF7D :=
  (dosdate_decode_then_encode (0xFF9FBF7D + 5 * 2 ^ 32) tm_zero (by decide)).trans (by decide)

/-! ## Claims: typed writers -/

/-- For a value below `256 ^ len` the clamp is not taken: the residue of the
fill loop is 0 and the write capability gets the plain bytes. -/
theorem mz_stream_write_value_plain {σ : Type} (strm : mz_stream σ)
    (wr : σ → List Nat → Nat → Int × σ) (s : σ) (v len : Nat) (hpos : 0 < len)
    (hv : v < 256 ^ len) (hwr : strm.write = some wr) (hopen : passes_guard strm s) :
    (write_value_fill len v).2 = 0 ∧
    mz_stream_write_value (some strm) s v len =
      (if (wr (state_after_guard strm s) (le_bytes v len) len).1 % 2 ^ 32 = (len : Int)
        then MZ_OK else MZ_STREAM_ERROR,
        (wr (state_after_guard strm s) (le_bytes v len) len).2) := by
  have hfit : v / 256 ^ len = 0 := Nat.div_eq_of_lt hv
  refine ⟨by rw [write_value_fill_eq]; exact hfit, ?_⟩
  rw [mz_stream_write_value_eq]
  simp only [hfit, ne_eq, not_true_eq_false, if_false]
  rw [mz_stream_write_guarded strm wr s _ len hwr hopen hpos,
    List.take_of_length_le (by rw [le_bytes_length])]
  split <;> simp_all

/-- C20: through `mz_stream_write_uint8/16/32/64` the overflow clamp is never
taken.  For every argument `v` of the parameter type, the residue after the fill
loop of `mz_stream_write_value` is 0, the write capability of an open stream is
called once with the plain little-endian bytes of `v`, and these bytes are all
`0xff` exactly when `v` is the largest value of the type. -/
theorem typed_writes_never_clamp {σ : Type} (strm : mz_stream σ)
    (wr : σ → List Nat → Nat → Int × σ) (s : σ) (v : Nat)
    (hwr : strm.write = some wr) (hopen : passes_guard strm s) :
    (v < 2 ^ 8 →
      (write_value_fill 1 v).2 = 0 ∧
      mz_stream_write_uint8 (some strm) s v =
        (if (wr (state_after_guard strm s) (le_bytes v 1) 1).1 % 2 ^ 32 = 1
          then MZ_OK else MZ_STREAM_ERROR,
          (wr (state_after_guard strm s) (le_bytes v 1) 1).2) ∧
      (le_bytes v 1 = List.replicate 1 0xff ↔ v = 2 ^ 8 - 1)) ∧
    (v < 2 ^ 16 →
      (write_value_fill 2 v).2 = 0 ∧
      mz_stream_write_uint16 (some strm) s v =
        (if (wr (state_after_guard strm s) (le_bytes v 2) 2).1 % 2 ^ 32 = 2
          then MZ_OK else MZ_STREAM_ERROR,
          (wr (state_after_guard strm s) (le_bytes v 2) 2).2) ∧
      (le_bytes v 2 = List.replicate 2 0xff ↔ v = 2 ^ 16 - 1)) ∧
    (v < 2 ^ 32 →
      (write_value_fill 4 v).2 = 0 ∧
      mz_stream_write_uint32 (some strm) s v =
        (if (wr (state_after_guard strm s) (le_bytes v 4) 4).1 % 2 ^ 32 = 4
          then MZ_OK else MZ_STREAM_ERROR,
          (wr (state_after_guard strm s) (le_bytes v 4) 4).2) ∧
      (le_bytes v 4 = List.replicate 4 0xff ↔ v = 2 ^ 32 - 1)) ∧
    (v < 2 ^ 64 →
      (write_value_fill 8 v).2 = 0 ∧
      mz_stream_write_uint64 (some strm) s v =
        (if (wr (state_after_guard strm s) (le_bytes v 8) 8).1 % 2 ^ 32 = 8
          then MZ_OK else MZ_STREAM_ERROR,
          (wr (state_after_guard strm s) (le_bytes v 8) 8).2) ∧
      (le_bytes v 8 = List.replicate 8 0xff ↔ v = 2 ^ 64 - 1)) := by
  refine ⟨?_, ?_, ?_, ?_⟩
  · intro hv
    obtain ⟨h1, h2⟩ :=
      mz_stream_write_value_plain strm wr s v 1 (by decide) (by omega) hwr hopen
    refine ⟨h1, h2, ?_⟩
    simp only [le_bytes_succ, le_bytes_zero, List.replicate, List.cons.injEq, and_true]
    omega
  · intro hv
    obtain ⟨h1, h2⟩ :=
      mz_stream_write_value_plain strm wr s v 2 (by decide) (by omega) hwr hopen
    refine ⟨h1, h2, ?_⟩
    simp only [le_bytes_succ, le_bytes_zero, List.replicate, List.cons.injEq, and_true]
    omega
  · intro hv
    obtain ⟨h1, h2⟩ :=
      mz_stream_write_value_plain strm wr s v 4 (by decide) (by omega) hwr hopen
    refine ⟨h1, h2, ?_⟩
    simp only [le_bytes_succ, le_bytes_zero, List.replicate, List.cons.injEq, and_true]
    omega
  · intro hv
    obtain ⟨h1, h2⟩ :=
      mz_stream_write_value_plain strm wr s v 8 (by decide) (by omega) hwr hopen
    refine ⟨h1, h2, ?_⟩
    simp only [le_bytes_succ, le_bytes_zero, List.replicate, List.cons.injEq, and_true]
    omega

/-- Witness of C20: `0xff00` through the 16-bit writer reaches the in-memory
target as `[0x00, 0xff]`, not as the clamp. -/
theorem typed_writes_never_clamp_witness :
    (0xff00 < 2 ^ 16) ∧
    mz_stream_write_uint16 (some memSink) [] 0xff00 = (MZ_OK, [0x00, 0xff]) :=
  ⟨by decide,
    ((typed_writes_never_clamp memSink (fun t buf n => ((n : Int), t ++ buf)) [] 0xff00 rfl
      (memSink_accepts.sink_passes [])).2.1 (by decide)).2.1.trans (by decide)⟩

/-! ## Lemmas: multi-byte readers -/

/-- `mz_stream_read_uint32` is its first byte followed by three more steps. -/
theorem mz_stream_read_uint32_eq {σ : Type} (stream : Option (mz_stream σ)) (s : σ)
    (old : Nat) :
    mz_stream_read_uint32 stream s old =
      if (mz_stream_read_uint8 stream s 0).1 ≠ MZ_OK then
        (MZ_STREAM_ERROR, 0, (mz_stream_read_uint8 stream s 0).2.2)
      else
        read_more stream 32 3 1 (mz_stream_read_uint8 stream s 0).2.2
          (mz_stream_read_uint8 stream s 0).2.1
          ((mz_stream_read_uint8 stream s 0).2.1 % 2 ^ 32) := by
  rfl

/-- `mz_stream_read_uint64` is its first byte followed by seven more steps. -/
theorem mz_stream_read_uint64_eq {σ : Type} (stream : Option (mz_stream σ)) (s : σ)
    (old : Nat) :
    mz_stream_read_uint64 stream s old =
      if (mz_stream_read_uint8 stream s 0).1 ≠ MZ_OK then
        (MZ_STREAM_ERROR, old, (mz_stream_read_uint8 stream s 0).2.2)
      else
        read_more stream 64 7 1 (mz_stream_read_uint8 stream s 0).2.2
          (mz_stream_read_uint8 stream s 0).2.1
          ((mz_stream_read_uint8 stream s 0).2.1 % 2 ^ 64) := by
  rfl

/-- `mz_stream_read_uint16` is its first byte followed by one more step. -/
theorem mz_stream_read_uint16_eq {σ : Type} (stream : Option (mz_stream σ)) (s : σ)
    (old : Nat) :
    mz_stream_read_uint16 stream s old =
      if (mz_stream_read_uint8 stream s 0).1 ≠ MZ_OK then
        (MZ_STREAM_ERROR, 0, (mz_stream_read_uint8 stream s 0).2.2)
      else
        read_more stream 16 1 1 (mz_stream_read_uint8 stream s 0).2.2
          (mz_stream_read_uint8 stream s 0).2.1
          ((mz_stream_read_uint8 stream s 0).2.1 % 2 ^ 16) := by
  simp only [mz_stream_read_uint16, read_more, Nat.add_mod_mod, Nat.mul_one]

/-- A single-byte read never leaves more than a byte in `c`. -/
theorem mz_stream_read_uint8_lt {σ : Type} (stream : Option (mz_stream σ)) (s : σ) (c : Nat)
    (hc : c < 256) : (mz_stream_read_uint8 stream s c).2.1 < 256 := by
  unfold mz_stream_read_uint8
  simp only
  split
  · exact Nat.mod_lt _ (by decide)
  · split <;> exact hc

/-- At the end of a quietly ending stream a single-byte read returns `MZ_OK`
and leaves `c` as it was. -/
theorem EndsQuietly.read_uint8_end {σ : Type} {strm : mz_stream σ} {content : σ → List Nat}
    (h : EndsQuietly strm content) (s : σ) (c : Nat) (hs : content s = []) :
    ∃ s2, mz_stream_read_uint8 (some strm) s c = (MZ_OK, c, s2) ∧ content s2 = [] := by
  obtain ⟨rd, hrd⟩ := h.delivers.has_read
  obtain ⟨ef, hef, herr⟩ := h.error_none
  have hg : content (state_after_guard strm s) = [] := by
    rw [h.delivers.guard_content s]; exact hs
  have hread := mz_stream_read_guarded strm rd s [0] 1 hrd (h.delivers.source_passes s)
  obtain ⟨hr0, hrc⟩ := h.read_end rd hrd (state_after_guard strm s) hg
  obtain ⟨he0, hec⟩ := herr (rd (state_after_guard strm s) 1).2.2 hrc
  refine ⟨(ef (rd (state_after_guard strm s) 1).2.2).2, ?_, hec⟩
  unfold mz_stream_read_uint8
  simp only [hread, hr0, mz_stream_error, hef, he0]
  simp

theorem read_more_succ {σ : Type} (stream : Option (mz_stream σ)) (bits n i : Nat) (s : σ)
    (c value : Nat) :
    read_more stream bits (n + 1) i s c value =
      if (mz_stream_read_uint8 stream s c).1 ≠ MZ_OK then
        (MZ_STREAM_ERROR, value, (mz_stream_read_uint8 stream s c).2.2)
      else
        read_more stream bits n (i + 1) (mz_stream_read_uint8 stream s c).2.2
          (mz_stream_read_uint8 stream s c).2.1
          ((value + (((mz_stream_read_uint8 stream s c).2.1 % 2 ^ bits) <<< (8 * i)) % 2 ^ bits) %
            2 ^ bits) := by
  rfl

/-- Adding a byte at position `i` to a value below `256 ^ i` does not wrap as
long as `i + 1` bytes fit the width. -/
theorem add_byte_no_wrap (bits i value c : Nat) (hc : c < 256) (hv : value < 256 ^ i)
    (hb : 256 ^ (i + 1) ≤ 2 ^ bits) :
    (value + ((c % 2 ^ bits) <<< (8 * i)) % 2 ^ bits) % 2 ^ bits = value + 256 ^ i * c ∧
      value + 256 ^ i * c < 256 ^ (i + 1) := by
  have hP : 2 ^ (8 * i) = 256 ^ i := by rw [pow_mul]; norm_num
  have hPpos : 0 < 256 ^ i := Nat.pos_pow_of_pos i (by decide)
  have hsucc : 256 ^ (i + 1) = 256 ^ i * 256 := pow_succ 256 i
  have hX : 256 ^ i * c ≤ 256 ^ i * 255 := Nat.mul_le_mul_left _ (by omega)
  rw [hsucc] at hb ⊢
  generalize 256 ^ i = P at *
  generalize hB : 2 ^ bits = B at *
  have hcB : c % B = c := Nat.mod_eq_of_lt (by omega)
  rw [hcB, Nat.shiftLeft_eq, hP, Nat.mul_comm c P]
  generalize P * c = X at *
  rw [Nat.mod_eq_of_lt (show X < B by omega), Nat.mod_eq_of_lt (show value + X < B by omega)]
  omega

/-- The further steps of a reader on a quietly ending stream: they succeed and
add the bytes read, then the last content of `c`, at their positions. -/
theorem EndsQuietly.read_more_spec {σ : Type} {strm : mz_stream σ} {content : σ → List Nat}
    (h : EndsQuietly strm content) (bits : Nat) :
    ∀ (n i : Nat) (s : σ) (c value : Nat), c < 256 → value < 256 ^ i →
      256 ^ (i + n) ≤ 2 ^ bits →
      (read_more (some strm) bits n i s c value).1 = MZ_OK ∧
        (read_more (some strm) bits n i s c value).2.1 =
          value + 256 ^ i * le_value (fill_reads (content s) c n) := by
  intro n
  induction n with
  | zero =>
    intro i s c value _ _ _
    simp [read_more, fill_reads, le_value]
  | succ n ih =>
    intro i s c value hc hv hb
    have hb1 : 256 ^ (i + 1) ≤ 2 ^ bits :=
      le_trans (Nat.pow_le_pow_right (by decide) (by omega)) hb
    rw [read_more_succ]
    cases hcs : content s with
    | nil =>
      obtain ⟨s2, hr, hc2⟩ := h.read_uint8_end s c hcs
      obtain ⟨hstep, hlt⟩ := add_byte_no_wrap bits i value c hc hv hb1
      simp only [hr, ne_eq, not_true_eq_false, if_false, hstep]
      obtain ⟨ih1, ih2⟩ := ih (i + 1) s2 c (value + 256 ^ i * c) hc hlt
        (by rw [show i + 1 + n = i + (n + 1) by omega]; exact hb)
      refine ⟨ih1, ?_⟩
      rw [ih2, hc2]
      simp only [fill_reads, le_value, pow_succ]
      ring
    | cons b rest =>
      obtain ⟨s2, hr, hc2⟩ := h.delivers.read_uint8 s c b rest hcs
      have hb256 : b % 256 < 256 := Nat.mod_lt _ (by decide)
      obtain ⟨hstep, hlt⟩ := add_byte_no_wrap bits i value (b % 256) hb256 hv hb1
      simp only [hr, ne_eq, not_true_eq_false, if_false, hstep]
      obtain ⟨ih1, ih2⟩ := ih (i + 1) s2 (b % 256) (value + 256 ^ i * (b % 256)) hb256 hlt
        (by rw [show i + 1 + n = i + (n + 1) by omega]; exact hb)
      refine ⟨ih1, ?_⟩
      rw [ih2, hc2]
      simp only [fill_reads, le_value, pow_succ]
      ring

/-- The further steps of a reader whose single-byte reads succeed for fewer
bytes than steps and then fail: the reader fails and leaves the bytes read at
their positions. -/
theorem read_more_fails {σ : Type} (stream : Option (mz_stream σ)) (bits : Nat) :
    ∀ (n i : Nat) (s : σ) (c value : Nat) (cs : List Nat), reads_then_fail stream cs s c →
      cs.length < n → c < 256 → value < 256 ^ i → 256 ^ (i + n) ≤ 2 ^ bits →
      (read_more stream bits n i s c value).1 = MZ_STREAM_ERROR ∧
        (read_more stream bits n i s c value).2.1 = value + 256 ^ i * le_value cs := by
  intro n
  induction n with
  | zero =>
    intro i s c value cs _ hlen
    omega
  | succ n ih =>
    intro i s c value cs hrun hlen hc hv hb
    have hb1 : 256 ^ (i + 1) ≤ 2 ^ bits :=
      le_trans (Nat.pow_le_pow_right (by decide) (by omega)) hb
    rw [read_more_succ]
    cases cs with
    | nil =>
      have hne : (mz_stream_read_uint8 stream s c).1 ≠ MZ_OK := hrun
      simp only [hne, ne_eq, not_false_eq_true, if_true, le_value, Nat.mul_zero,
        Nat.add_zero, and_self]
    | cons c1 cs =>
      obtain ⟨hok, hc1, hrest⟩ := hrun
      have hlt1 : c1 < 256 := by
        rw [← hc1]; exact mz_stream_read_uint8_lt stream s c hc
      obtain ⟨hstep, hlt⟩ := add_byte_no_wrap bits i value c1 hlt1 hv hb1
      simp only [hok, hc1, ne_eq, not_true_eq_false, if_false, hstep]
      obtain ⟨ih1, ih2⟩ := ih (i + 1) _ c1 (value + 256 ^ i * c1) cs hrest
        (by simpa using hlen) hlt1 hlt
        (by rw [show i + 1 + n = i + (n + 1) by omega]; exact hb)
      refine ⟨ih1, ?_⟩
      rw [ih2]
      simp only [le_value, pow_succ]
      ring

/-- A whole reader on a quietly ending stream: the first byte and `n` more
steps succeed and give the value of the bytes read padded by the last `c`. -/
theorem EndsQuietly.first_then_more {σ : Type} {strm : mz_stream σ}
    {content : σ → List Nat} (h : EndsQuietly strm content) (bits n : Nat) (s : σ)
    (hbits : 256 ^ (1 + n) ≤ 2 ^ bits) :
    (mz_stream_read_uint8 (some strm) s 0).1 = MZ_OK ∧
      (read_more (some strm) bits n 1 (mz_stream_read_uint8 (some strm) s 0).2.2
        (mz_stream_read_uint8 (some strm) s 0).2.1
        ((mz_stream_read_uint8 (some strm) s 0).2.1 % 2 ^ bits)).1 = MZ_OK ∧
      (read_more (some strm) bits n 1 (mz_stream_read_uint8 (some strm) s 0).2.2
        (mz_stream_read_uint8 (some strm) s 0).2.1
        ((mz_stream_read_uint8 (some strm) s 0).2.1 % 2 ^ bits)).2.1 =
        le_value (fill_reads (content s) 0 (n + 1)) := by
  have h1 : 256 ^ 1 ≤ 256 ^ (1 + n) := Nat.pow_le_pow_right (by decide) (by omega)
  have h256 : 256 ≤ 2 ^ bits := by
    rw [Nat.pow_one] at h1
    exact le_trans h1 hbits
  cases hcs : content s with
  | nil =>
    obtain ⟨s2, hr, hc2⟩ := h.read_uint8_end s 0 hcs
    rw [hr]
    obtain ⟨m1, m2⟩ := h.read_more_spec bits n 1 s2 0 (0 % 2 ^ bits) (by decide)
      (by rw [Nat.zero_mod]; decide) hbits
    refine ⟨rfl, m1, ?_⟩
    rw [m2, hc2]
    simp [fill_reads, le_value]
  | cons b rest =>
    obtain ⟨s2, hr, hc2⟩ := h.delivers.read_uint8 s 0 b rest hcs
    rw [hr]
    have hb256 : b % 256 < 256 := Nat.mod_lt _ (by decide)
    have hmod : b % 256 % 2 ^ bits = b % 256 := Nat.mod_eq_of_lt (by omega)
    obtain ⟨m1, m2⟩ := h.read_more_spec bits n 1 s2 (b % 256) (b % 256 % 2 ^ bits) hb256
      (by rw [hmod]; simpa using hb256) hbits
    refine ⟨rfl, m1, ?_⟩
    rw [m2, hc2, hmod]
    simp [fill_reads, le_value]

/-- A whole reader whose first byte is read and which then fails before its
last byte: after the first byte the further steps fail, and the value is that
of the bytes read. -/
theorem first_then_more_fails {σ : Type} (stream : Option (mz_stream σ)) (bits n : Nat)
    (s : σ) (c0 : Nat) (cs : List Nat) (hbits : 256 ^ (1 + n) ≤ 2 ^ bits)
    (hrun : reads_then_fail stream (c0 :: cs) s 0) (hlen : (c0 :: cs).length < n + 1) :
    (mz_stream_read_uint8 stream s 0).1 = MZ_OK ∧
      (read_more stream bits n 1 (mz_stream_read_uint8 stream s 0).2.2
        (mz_stream_read_uint8 stream s 0).2.1
        ((mz_stream_read_uint8 stream s 0).2.1 % 2 ^ bits)).1 = MZ_STREAM_ERROR ∧
      (read_more stream bits n 1 (mz_stream_read_uint8 stream s 0).2.2
        (mz_stream_read_uint8 stream s 0).2.1
        ((mz_stream_read_uint8 stream s 0).2.1 % 2 ^ bits)).2.1 = le_value (c0 :: cs) := by
  have h1 : 256 ^ 1 ≤ 256 ^ (1 + n) := Nat.pow_le_pow_right (by decide) (by omega)
  have h256 : 256 ≤ 2 ^ bits := by
    rw [Nat.pow_one] at h1
    exact le_trans h1 hbits
  obtain ⟨hok, hc0, hrest⟩ := hrun
  have hlt0 : c0 < 256 := by
    rw [← hc0]; exact mz_stream_read_uint8_lt stream s 0 (by decide)
  have hmod : c0 % 2 ^ bits = c0 := Nat.mod_eq_of_lt (by omega)
  rw [hc0, hmod]
  obtain ⟨m1, m2⟩ := read_more_fails stream bits n 1 _ c0 c0 cs hrest
    (by simpa using hlen) hlt0 (by simpa using hlt0) hbits
  refine ⟨hok, m1, ?_⟩
  rw [m2]
  simp [le_value]

theorem fill_reads_nil (c n : Nat) : fill_reads [] c n = List.replicate n c := by
  induction n with
  | zero => rfl
  | succ n ih => simp [fill_reads, ih, List.replicate_succ]

/-- With no more bytes than reads, the contents of `c` are the bytes read
followed by copies of the last one (of the initial `c` if none was read). -/
theorem fill_reads_eq (bytes : List Nat) :
    ∀ (c n : Nat), bytes.length ≤ n →
      fill_reads bytes c n =
        bytes.map (· % 256) ++
          List.replicate (n - bytes.length) ((bytes.map (· % 256)).getLastD c) := by
  induction bytes with
  | nil =>
    intro c n _
    simp [fill_reads_nil]
  | cons b rest ih =>
    intro c n hlen
    cases n with
    | zero => simp at hlen
    | succ m =>
      have hm : rest.length ≤ m := by simpa using hlen
      simp only [fill_reads, ih (b % 256) m hm, List.map_cons, List.cons_append,
        List.length_cons, Nat.add_sub_add_right, List.getLastD_cons]

theorem fill_reads_eq_pad (bytes : List Nat) (n : Nat) (h : bytes.length ≤ n) :
    fill_reads bytes 0 n = pad_with_last (bytes.map (· % 256)) n := by
  rw [fill_reads_eq bytes 0 n h]
  simp [pad_with_last]

theorem memSource_ends_quietly : EndsQuietly memSource id where
  delivers := memSource_delivers
  read_end := by
    intro rd hrd s hs
    simp only [memSource, Option.some.injEq] at hrd
    subst hrd
    simp only [id] at hs
    subst hs
    exact ⟨rfl, rfl⟩
  error_none := ⟨fun s => (0, s), rfl, fun s hs => ⟨rfl, hs⟩⟩

/-! ## Claims: multi-byte readers -/

/-- C15: for `mz_stream_read_uint16/32/64`, if the first `k - 1` single-byte
reads succeed, reading the bytes `c0 :: cs`, and the `k`-th does not (it reports
a stream error), with `1 < k ≤ width`, then the call returns `MZ_STREAM_ERROR`
and the output integer holds the little-endian value of the `k - 1` bytes read
(lower bytes set, higher bytes zero), whatever it held before. -/
theorem multibyte_read_error_keeps_read_bytes {σ : Type} (stream : Option (mz_stream σ))
    (s : σ) (old c0 : Nat) (cs : List Nat)
    (hrun : reads_then_fail stream (c0 :: cs) s 0) :
    ((c0 :: cs).length < 2 →
      (mz_stream_read_uint16 stream s old).1 = MZ_STREAM_ERROR ∧
      (mz_stream_read_uint16 stream s old).2.1 = le_value (c0 :: cs)) ∧
    ((c0 :: cs).length < 4 →
      (mz_stream_read_uint32 stream s old).1 = MZ_STREAM_ERROR ∧
      (mz_stream_read_uint32 stream s old).2.1 = le_value (c0 :: cs)) ∧
    ((c0 :: cs).length < 8 →
      (mz_stream_read_uint64 stream s old).1 = MZ_STREAM_ERROR ∧
      (mz_stream_read_uint64 stream s old).2.1 = le_value (c0 :: cs)) := by
  refine ⟨?_, ?_, ?_⟩
  · intro hlen
    obtain ⟨f1, f2, f3⟩ := first_then_more_fails stream 16 1 s c0 cs (by norm_num) hrun hlen
    rw [mz_stream_read_uint16_eq]
    simp only [f1, ne_eq, not_true_eq_false, if_false]
    exact ⟨f2, f3⟩
  · intro hlen
    obtain ⟨f1, f2, f3⟩ := first_then_more_fails stream 32 3 s c0 cs (by norm_num) hrun hlen
    rw [mz_stream_read_uint32_eq]
    simp only [f1, ne_eq, not_true_eq_false, if_false]
    exact ⟨f2, f3⟩
  · intro hlen
    obtain ⟨f1, f2, f3⟩ := first_then_more_fails stream 64 7 s c0 cs (by norm_num) hrun hlen
    rw [mz_stream_read_uint64_eq]
    simp only [f1, ne_eq, not_true_eq_false, if_false]
    exact ⟨f2, f3⟩

/-- Witness of C15: two bytes then an error under `mz_stream_read_uint32`, the
output holding 99 before the call. -/
theorem multibyte_read_error_keeps_read_bytes_witness :
    (mz_stream_read_uint32 (some brokenSource) [0x34, 0x12] 99).1 = MZ_STREAM_ERROR ∧
    (mz_stream_read_uint32 (some brokenSource) [0x34, 0x12] 99).2.1 = 0x1234 :=
  ⟨((multibyte_read_error_keeps_read_bytes (some brokenSource) [0x34, 0x12] 99 0x34 [0x12]
      (by simp only [reads_then_fail]; decide)).2.1 (by decide)).1,
    ((multibyte_read_error_keeps_read_bytes (some brokenSource) [0x34, 0x12] 99 0x34 [0x12]
      (by simp only [reads_then_fail]; decide)).2.1 (by decide)).2.trans (by decide)⟩

/-- C19: on a stream that ends quietly (a read at the end returns 0 bytes and
`error()` reports 0), `mz_stream_read_uint16/32/64` with no more bytes left than
the width return `MZ_OK`, and the value is that of the bytes read with every
position past the end of the data filled by the last byte read, or by 0 if none
was read; with exactly one byte `b` left, `mz_stream_read_uint16` gives
`b + 256 * b`. -/
theorem multibyte_read_eof_repeats_last {σ : Type} (strm : mz_stream σ)
    (content : σ → List Nat) (henv : EndsQuietly strm content) (s : σ) (old : Nat) :
    (∀ b, content s = [b] → b < 256 →
      (mz_stream_read_uint16 (some strm) s old).1 = MZ_OK ∧
      (mz_stream_read_uint16 (some strm) s old).2.1 = b + 256 * b) ∧
    ((content s).length ≤ 2 →
      (mz_stream_read_uint16 (some strm) s old).1 = MZ_OK ∧
      (mz_stream_read_uint16 (some strm) s old).2.1 =
        le_value (pad_with_last ((content s).map (· % 256)) 2)) ∧
    ((content s).length ≤ 4 →
      (mz_stream_read_uint32 (some strm) s old).1 = MZ_OK ∧
      (mz_stream_read_uint32 (some strm) s old).2.1 =
        le_value (pad_with_last ((content s).map (· % 256)) 4)) ∧
    ((content s).length ≤ 8 →
      (mz_stream_read_uint64 (some strm) s old).1 = MZ_OK ∧
      (mz_stream_read_uint64 (some strm) s old).2.1 =
        le_value (pad_with_last ((content s).map (· % 256)) 8)) := by
  have h16 : (content s).length ≤ 2 →
      (mz_stream_read_uint16 (some strm) s old).1 = MZ_OK ∧
      (mz_stream_read_uint16 (some strm) s old).2.1 =
        le_value (pad_with_last ((content s).map (· % 256)) 2) := by
    intro hlen
    obtain ⟨f1, f2, f3⟩ := henv.first_then_more 16 1 s (by norm_num)
    rw [mz_stream_read_uint16_eq]
    simp only [f1, ne_eq, not_true_eq_false, if_false]
    exact ⟨f2, by rw [f3, fill_reads_eq_pad _ _ hlen]⟩
  refine ⟨?_, h16, ?_, ?_⟩
  · intro b hb hlt
    obtain ⟨g1, g2⟩ := h16 (by rw [hb]; simp)
    refine ⟨g1, ?_⟩
    rw [g2, hb]
    simp [pad_with_last, le_value, Nat.mod_eq_of_lt hlt]
  · intro hlen
    obtain ⟨f1, f2, f3⟩ := henv.first_then_more 32 3 s (by norm_num)
    rw [mz_stream_read_uint32_eq]
    simp only [f1, ne_eq, not_true_eq_false, if_false]
    exact ⟨f2, by rw [f3, fill_reads_eq_pad _ _ hlen]⟩
  · intro hlen
    obtain ⟨f1, f2, f3⟩ := henv.first_then_more 64 7 s (by norm_num)
    rw [mz_stream_read_uint64_eq]
    simp only [f1, ne_eq, not_true_eq_false, if_false]
    exact ⟨f2, by rw [f3, fill_reads_eq_pad _ _ hlen]⟩

/-- Witness of C19: one byte `0x34` left under `mz_stream_read_uint16`, and two
bytes left under `mz_stream_read_uint32`, on the in-memory source. -/
theorem multibyte_read_eof_repeats_last_witness :
    (mz_stream_read_uint16 (some memSource) [0x34] 0).2.1 = 0x34 + 256 * 0x34 ∧
    (mz_stream_read_uint32 (some memSource) [0x34, 0x12] 0).1 = MZ_OK ∧
    (mz_stream_read_uint32 (some memSource) [0x34, 0x12] 0).2.1 = 0x12121234 :=
  ⟨((multibyte_read_eof_repeats_last memSource id memSource_ends_quietly [0x34] 0).1
      0x34 rfl (by decide)).2,
    ((multibyte_read_eof_repeats_last memSource id memSource_ends_quietly [0x34, 0x12]
      0).2.2.1 (by decide)).1,
    ((multibyte_read_eof_repeats_last memSource id memSource_ends_quietly [0x34, 0x12]
      0).2.2.1 (by decide)).2.trans (by decide)⟩

end MzStrm
